import Mathlib

/-!
Verification of the vanilla-ts-components widget library against its
natural-language specification.

The development shallowly embeds the relevant parts of the TypeScript source:
 - `ScrollContainer` geometry arithmetic (`#putIntoRange`,
   `#syncScrollBarGeometry`, `#repositionScrollBars`), with JS numbers
   modelled as rationals;
 - the `TabGroup`/`Tab` activation bookkeeping (`getTabToActivateAfterRemoval`
   and the tab-group operations) as an explicit state machine;
 - `LabeledComponent.labelPosition`/`labelAlignment`;
 - `DisclosureContainer.disclosed`/`toggleDisclosed`;
 - `LabeledRadioButtonGroup.value`/`Value`.
-/

namespace VTSpec

/-! ## JavaScript-array helpers

JS `arr[i]` with a possibly negative index yields `undefined` for any
out-of-range index; we model it with an `Int` index returning `Option`. -/

/-- Model of JS array indexing `arr[i]` for an `Int` index: `none` stands for
`undefined` (negative or out-of-range index). -/
def jsGet (l : List α) (i : Int) : Option α :=
  if i < 0 then none else l.get? i.toNat

/-- Model of `[...new Set(xs)]` (auxiliary, carrying the set of already seen
elements): deduplication keeping the first occurrence of each element, in
order. -/
def jsSetDedupAux [DecidableEq α] : List α → List α → List α
  | [], _ => []
  | x :: xs, seen =>
    if x ∈ seen then jsSetDedupAux xs seen else x :: jsSetDedupAux xs (x :: seen)

/-- Model of `[...new Set(xs)]`: deduplication keeping first occurrences. -/
def jsSetDedup [DecidableEq α] (l : List α) : List α := jsSetDedupAux l []

/-! ## DOM `classList` helpers

`classList.add` appends a class if absent, `classList.remove` deletes it;
the component-library `addClass`/`removeClass` wrap these. -/

/-- Model of `classList.add c` on a class list. -/
def addClass (c : String) (cs : List String) : List String :=
  if c ∈ cs then cs else cs ++ [c]

/-- Model of `classList.remove c` on a class list. -/
def removeClass (c : String) (cs : List String) : List String :=
  cs.filter (fun x => x ≠ c)

/-! ## ScrollContainer geometry (src/unnamed/part_004)

JS numbers are modelled as rationals.  Division by zero in ℚ returns `0`
(where JS would return `NaN`/`Infinity`); the theorems below only depend on
the division in branches where the divisor situation is stated explicitly. -/

/-- Transcription of `ScrollContainer.#putIntoRange(n, rangeEnd1, rangeEnd2)`
from part_004 lines 910-916. -/
def putIntoRange (n rangeEnd1 rangeEnd2 : ℚ) : ℚ :=
  if rangeEnd1 = rangeEnd2 then rangeEnd1
  else if rangeEnd1 < rangeEnd2 then max (min n rangeEnd2) rangeEnd1
  else max (min n rangeEnd1) rangeEnd2

/-- Fields of a `ScrollContainer` instance used by `#repositionScrollBars`:
the enabling flags, the direction, the current scroll offsets of the
scrollable element, and the four scroll ranges precomputed by
`#syncScrollBarGeometry` (part_004 lines 621-624). -/
structure ScrollState where
  horizontal : Bool
  vertical : Bool
  native : Bool
  isRTL : Bool
  scrollLeft : ℚ
  scrollTop : ℚ
  hScrollRange : ℚ
  hBarScrollRange : ℚ
  vScrollRange : ℚ
  vBarScrollRange : ℚ
deriving Repr, DecidableEq

/-- Raw DOM geometry read inside `#syncScrollBarGeometry`: sizes of the
scrollable element (content and viewport) and of the scroll-bar tracks and
thumbs. -/
structure ScrollSizes where
  scrollWidth : ℚ
  offsetWidth : ℚ
  scrollHeight : ℚ
  offsetHeight : ℚ
  hBarWidth : ℚ
  hBarThumbWidth : ℚ
  vBarHeight : ℚ
  vBarThumbHeight : ℚ
deriving Repr, DecidableEq

/-- Transcription of the range precomputation at the end of
`ScrollContainer.#syncScrollBarGeometry` (part_004 lines 621-624):
`hScrollRange = scrollWidth - offsetWidth` (content size minus viewport
size), `hBarScrollRange = hBar.offsetWidth - hBarThumb.offsetWidth`, and
the two vertical counterparts. -/
def syncScrollRanges (s : ScrollState) (z : ScrollSizes) : ScrollState :=
  { s with
    hScrollRange := z.scrollWidth - z.offsetWidth
    hBarScrollRange := z.hBarWidth - z.hBarThumbWidth
    vScrollRange := z.scrollHeight - z.offsetHeight
    vBarScrollRange := z.vBarHeight - z.vBarThumbHeight }

/-- Transcription of the horizontal-thumb positioning in
`ScrollContainer.#repositionScrollBars` (part_004 lines 643-679): when the
component is non-native, the horizontal bar is enabled and the thumb travel
range is positive, the thumb inset is set to
`putIntoRange(hBarScrollRange * (isRTL ? -scrollLeft : scrollLeft) / hScrollRange, 0, hBarScrollRange)`
pixels; `none` models all other cases (no inset set because the component is
native, or the overlay hidden and the inset cleared). -/
def repositionHThumbInset (s : ScrollState) : Option ℚ :=
  if s.native then none
  else if s.horizontal ∧ 0 < s.hBarScrollRange then
    some (putIntoRange
      (s.hBarScrollRange * (if s.isRTL then -s.scrollLeft else s.scrollLeft) / s.hScrollRange)
      0 s.hBarScrollRange)
  else none

/-- Transcription of the vertical-thumb positioning in
`ScrollContainer.#repositionScrollBars` (part_004 lines 680-700); the
vertical branch does not negate the scroll offset in RTL mode. -/
def repositionVThumbInset (s : ScrollState) : Option ℚ :=
  if s.native then none
  else if s.vertical ∧ 0 < s.vBarScrollRange then
    some (putIntoRange
      (s.vBarScrollRange * s.scrollTop / s.vScrollRange)
      0 s.vBarScrollRange)
  else none

/-- Result of the per-axis part of `ScrollContainer.#syncScrollBarGeometry`:
whether the bar overlay was hidden (`style.display = "none"`) and the thumb
length that was set, in percent of the bar. -/
structure SyncAxisResult where
  overlayHidden : Bool
  thumbLengthPct : ℚ
deriving Repr, DecidableEq

/-- Transcription of the horizontal block of
`ScrollContainer.#syncScrollBarGeometry` (part_004 lines 582-594) for an
enabled horizontal bar, with `w` the viewport size (`clientWidth`) and `sw`
the content size (`scrollWidth`).  The source guards the divisor with
`this.#scrollable.scrollWidth || 0.000001`, substituting `0.000001` when the
content size is `0` (JS `||` on a number is falsy exactly at `0`/`NaN`). -/
def syncAxisGeometry (w sw : ℚ) : SyncAxisResult :=
  let sw1 := if sw = 0 then 1 / 1000000 else sw
  { overlayHidden := !(decide (w < sw1)),
    thumbLengthPct := if w < sw1 then w / sw1 * 100 else 100 }

/-- Transcription of the vertical block of
`ScrollContainer.#syncScrollBarGeometry` (part_004 lines 595-604), with `h`
the viewport size (`clientHeight`) and `sh` the content size
(`scrollHeight`); identical in structure to the horizontal block. -/
def syncAxisGeometryV (h sh : ℚ) : SyncAxisResult :=
  let sh1 := if sh = 0 then 1 / 1000000 else sh
  { overlayHidden := !(decide (h < sh1)),
    thumbLengthPct := if h < sh1 then h / sh1 * 100 else 100 }

/-! ## TabGroup and Tab (src/src/TabGroup.ts)

Tabs are identified by a `Nat` id; distinct tab objects carry distinct ids
(object identity in the source).  A `Tab` record carries the tab's own
`active` flag (`Tab.active`, toggled by the `tab` event handler
`Tab.tabEvent`, lines 838-845).  The group state holds the header list
(`this.tabs`, always mirroring the header container), the `activeTab`
reference and the content area (`this.tabContent`), which in the source
holds at most one tab content container at a time. -/

/-- Model of a `Tab` component: its identity and its `active` flag. -/
structure Tab where
  id : Nat
  active : Bool
deriving Repr, DecidableEq

/-- State of a `TabGroup`: the tab list (in header order), the `activeTab`
reference (by id) and the single occupant of the content area (by id). -/
structure TabGroupState where
  tabs : List Tab
  activeTab : Option Nat
  content : Option Nat
deriving Repr, DecidableEq

/-- Tab ids of a group, in header order. -/
def tabIds (s : TabGroupState) : List Nat := s.tabs.map Tab.id

/-- State of a freshly constructed `TabGroup` (no tabs, no active tab,
empty content area). -/
def tgInit : TabGroupState := ⟨[], none, none⟩

/-- Largest element of a list of naturals (`0` for the empty list), used as
a termination bound for the scanning loop of `getTabToActivateAfterRemoval`. -/
def maxNat (l : List Nat) : Nat := l.foldr max 0

/-- Transcription of the scanning loop of
`TabGroup.getTabToActivateAfterRemoval` (lines 508-510):
`while (sorted.find(e => e.Index === firstQualifiedIndexRightOfActiveTab)) firstQualifiedIndexRightOfActiveTab++`.
The loop is written with explicit fuel; the caller passes fuel exceeding the
largest index occurring in `sorted`, which makes the fuelled loop agree with
the unbounded one (`firstQualifiedIdx_spec`). -/
def firstQualifiedIdx (sorted : List (Nat × Nat)) (i : Nat) : Nat → Nat
  | 0 => i
  | fuel + 1 =>
    if (sorted.find? (fun e => e.1 = i)).isSome then
      firstQualifiedIdx sorted (i + 1) fuel
    else i

/-- The `uniques` local of `TabGroup.getTabToActivateAfterRemoval` (line
498): `[...new Set(tabsToRemove)].filter(e => this.tabs.includes(e))`. -/
def tgRemovalUniques (tabs tabsToRemove : List Nat) : List Nat :=
  (jsSetDedup tabsToRemove).filter (fun e => e ∈ tabs)

/-- The `sorted` local of `TabGroup.getTabToActivateAfterRemoval` (lines
502-507): the pairs `(Index, Tab)` of the unique removed tabs, stably
sorted by `Index` (the JS stable `sort((a, b) => a.Index - b.Index)` is
modelled by the stable `List.insertionSort`). -/
def tgRemovalSorted (tabs tabsToRemove : List Nat) : List (Nat × Nat) :=
  List.insertionSort (fun a b => a.1 ≤ b.1)
    ((tgRemovalUniques tabs tabsToRemove).map (fun tab => (tabs.indexOf tab, tab)))

/-- Transcription of `TabGroup.getTabToActivateAfterRemoval` (lines
494-514), on tab ids.  `this.tabs[sorted[0].Index - 1]` is JS indexing
with a possibly negative index (`jsGet`). -/
def getTabToActivateAfterRemoval (tabs : List Nat) (activeTab : Option Nat)
    (tabsToRemove : List Nat) : Option Nat :=
  match activeTab with
  | none => none
  | some act =>
    if ¬ act ∈ tabsToRemove then none
    else
      if (tgRemovalUniques tabs tabsToRemove).isEmpty then none
      else
        let sorted := tgRemovalSorted tabs tabsToRemove
        let firstQualified := firstQualifiedIdx sorted (tabs.indexOf act + 1)
          (maxNat (sorted.map Prod.fst) + 1)
        if tabs.length ≤ firstQualified then
          match sorted.head? with
          | some p => jsGet tabs ((p.1 : Int) - 1)
          | none => none
        else jsGet tabs (firstQualified : Int)

/-- Transcription of `TabGroup.active(tab)` (lines 130-147).  Emitting the
deactivation `TabEvent` for every currently active tab clears the `active`
flag of that tab (handler `Tab.tabEvent`); the content area is emptied
(`this.tabContent.remove()`) and receives the content container of the tab
being activated; the final activation `TabEvent` sets the flag of that tab.
Tab objects are compared by id (`tab === this.activeTab` is object
identity; member ids are kept distinct by the group invariant). -/
def tgActive (s : TabGroupState) : Option Nat → TabGroupState
  | none => s
  | some t =>
    if s.activeTab = some t ∨ ¬ t ∈ tabIds s then s
    else
      { tabs := (s.tabs.map (fun tb => if tb.active then { tb with active := false } else tb)).map
          (fun tb => if tb.id = t then { tb with active := true } else tb)
        activeTab := some t
        content := some t }

/-- Transcription of `TabGroup.first()` (lines 196-198): activates
`this.tabs[0]` (a no-op on an empty group since `active(undefined)` returns
immediately). -/
def tgFirst (s : TabGroupState) : TabGroupState := tgActive s (tabIds s).head?

/-- Transcription of `TabGroup.last()` (lines 244-246): activates
`this.tabs.at(-1)`. -/
def tgLast (s : TabGroupState) : TabGroupState := tgActive s (tabIds s).getLast?

/-- Case analysis of `TabGroup.previous()` over the `activeTab` reference
(`this.tabs.indexOf(this.activeTab!)` is `-1` exactly when the reference is
absent or not in the list). -/
def tgPreviousAux (s : TabGroupState) : Option Nat → TabGroupState
  | none => s
  | some act =>
    if ¬ act ∈ tabIds s then s
    else if (tabIds s).indexOf act = 0 then tgLast s
    else tgActive s ((tabIds s).get? ((tabIds s).indexOf act - 1))

/-- Transcription of `TabGroup.previous()` (lines 207-217): index `-1`
(no active tab, or the active tab reference not in the list) changes
nothing, index `0` cycles to the last tab, otherwise the left neighbour of
the active tab is activated. -/
def tgPrevious (s : TabGroupState) : TabGroupState := tgPreviousAux s s.activeTab

/-- Case analysis of `TabGroup.next()` over the `activeTab` reference. -/
def tgNextAux (s : TabGroupState) : Option Nat → TabGroupState
  | none => s
  | some act =>
    if ¬ act ∈ tabIds s then s
    else if (tabIds s).indexOf act = (tabIds s).length - 1 then tgFirst s
    else tgActive s ((tabIds s).get? ((tabIds s).indexOf act + 1))

/-- Transcription of `TabGroup.next()` (lines 226-236): index `-1` changes
nothing, the last index cycles to the first tab, otherwise the right
neighbour of the active tab is activated. -/
def tgNext (s : TabGroupState) : TabGroupState := tgNextAux s s.activeTab

/-- Transcription of `TabGroup.append(...tabs)` (lines 300-326): duplicates
and tabs already mounted somewhere are skipped (a tab already in this group
has a parent, and a detached tab enters with a cleared `active` flag since
`Tab.onDidUnmount` resets it); if the group was empty the first appended
tab is activated. -/
def tgAppend (s : TabGroupState) (ids : List Nat) : TabGroupState :=
  if ids = [] then s
  else
    let newTabs := (jsSetDedup ids).filter (fun i => ¬ i ∈ tabIds s)
    match newTabs.head? with
    | none => s
    | some firstId =>
      let wasEmpty := s.tabs.length = 0
      let s1 : TabGroupState :=
        { s with tabs := s.tabs ++ newTabs.map (fun i => ⟨i, false⟩) }
      if wasEmpty then tgActive s1 (some firstId) else s1

/-- Transcription of `TabGroup.insert(at, ...tabs)` (lines 342-368) for a
numeric index: deduplicated tabs that are members (moved within the group,
keeping their record) or detached (entering with a cleared `active` flag)
are placed at the clamped index among the remaining children; the header
container moves already-contained children. -/
def tgInsert (s : TabGroupState) (at1 : Nat) (ids : List Nat) : TabGroupState :=
  if ids = [] then s
  else
    let batch := jsSetDedup ids
    let moving := batch.map (fun i => ((s.tabs.find? (fun tb => tb.id = i)).getD ⟨i, false⟩))
    let others := s.tabs.filter (fun tb => ¬ tb.id ∈ batch)
    let k := min at1 others.length
    { s with tabs := others.take k ++ moving ++ others.drop k }

/-- Transcription of `TabGroup.remove(...tabs)` (lines 376-393): the new
tab to activate is computed *before* the removal; the content containers of
the removed tabs leave their parents (emptying the content area when it
held one of them); the removed headers unmount; `syncTabs` (lines 479-484)
resets `activeTab` when the group became empty; finally the precomputed tab
is activated. -/
def tgRemove (s : TabGroupState) (ids : List Nat) : TabGroupState :=
  if ids = [] then s
  else
    let toRemove := (jsSetDedup ids).filter (fun i => i ∈ tabIds s)
    if toRemove.isEmpty then s
    else
      let newActive := getTabToActivateAfterRemoval (tabIds s) s.activeTab toRemove
      let content1 := match s.content with
        | some c => if c ∈ toRemove then none else some c
        | none => none
      let tabs1 := s.tabs.filter (fun tb => ¬ tb.id ∈ toRemove)
      let active1 := if tabs1.isEmpty then none else s.activeTab
      tgActive { tabs := tabs1, activeTab := active1, content := content1 } newActive

/-- Transcription of `TabGroup.extract(to, ...tabs)` (lines 404-426): with
no tabs given, all content containers leave their parents, all tabs are
extracted and `syncTabs` resets `activeTab`; otherwise the behaviour equals
`remove` (the extracted tab objects leave the model). -/
def tgExtract (s : TabGroupState) (ids : List Nat) : TabGroupState :=
  if ids = [] then ⟨[], none, none⟩
  else
    let toRemove := (jsSetDedup ids).filter (fun i => i ∈ tabIds s)
    if toRemove.isEmpty then s
    else
      let newActive := getTabToActivateAfterRemoval (tabIds s) s.activeTab toRemove
      let content1 := match s.content with
        | some c => if c ∈ toRemove then none else some c
        | none => none
      let tabs1 := s.tabs.filter (fun tb => ¬ tb.id ∈ toRemove)
      let active1 := if tabs1.isEmpty then none else s.activeTab
      tgActive { tabs := tabs1, activeTab := active1, content := content1 } newActive

/-- Transcription of `TabGroup.requestActivateTab(tab)` (lines 260-266),
state part: a non-member changes nothing, otherwise the tab is activated. -/
def tgRequestActivateTab (s : TabGroupState) (t : Nat) : TabGroupState :=
  if ¬ t ∈ tabIds s then s else tgActive s (some t)

/-- Transcription of `TabGroup.requestCloseTab(tab)` (lines 279-291), state
part: a non-member changes nothing; otherwise the tab is removed (and
disposed, leaving the model) and, when it was the active tab, the tab now
at its former index (or the last tab) is activated. -/
def tgRequestCloseTab (s : TabGroupState) (t : Nat) : TabGroupState :=
  if ¬ t ∈ tabIds s then s
  else
    let idx := (tabIds s).indexOf t
    let wasActive := s.activeTab = some t
    let s1 := tgRemove s [t]
    if wasActive then
      tgActive s1 (match (tabIds s1).get? idx with
        | some x => some x
        | none => (tabIds s1).getLast?)
    else s1

/-- Operations on a `TabGroup` named by claim C4. -/
inductive TGOp where
  | activate (t : Option Nat)
  | first
  | previous
  | next
  | last
  | append (ids : List Nat)
  | insert (at1 : Nat) (ids : List Nat)
  | remove (ids : List Nat)
  | extract (ids : List Nat)
  | requestActivate (t : Nat)
  | requestClose (t : Nat)
deriving Repr, DecidableEq

/-- Apply one `TabGroup` operation. -/
def tgStep (s : TabGroupState) : TGOp → TabGroupState
  | .activate t => tgActive s t
  | .first => tgFirst s
  | .previous => tgPrevious s
  | .next => tgNext s
  | .last => tgLast s
  | .append ids => tgAppend s ids
  | .insert at1 ids => tgInsert s at1 ids
  | .remove ids => tgRemove s ids
  | .extract ids => tgExtract s ids
  | .requestActivate t => tgRequestActivateTab s t
  | .requestClose t => tgRequestCloseTab s t

/-- Run a sequence of `TabGroup` operations. -/
def tgRun (ops : List TGOp) (s : TabGroupState) : TabGroupState :=
  ops.foldl tgStep s

/-- Invariant of a `TabGroup`: member ids are distinct (distinct tab
objects), and the content area either is empty with every member tab
inactive, or holds exactly the content of one member tab, which is the one
the `activeTab` reference points to and the only member with a set `active`
flag. -/
def TGInv (s : TabGroupState) : Prop :=
  (tabIds s).Nodup
  ∧ (match s.content with
     | some c => c ∈ tabIds s ∧ s.activeTab = some c
         ∧ ∀ tb ∈ s.tabs, tb.active = decide (tb.id = c)
     | none => ∀ tb ∈ s.tabs, tb.active = false)

/-- Index predicate used to state the behaviour of
`getTabToActivateAfterRemoval`: position `j` of the tab list holds a tab
that is in the removal list. -/
def removedIdxP (tabs rem : List Nat) (j : Nat) : Prop :=
  j < tabs.length ∧ tabs.getD j 0 ∈ rem

instance (tabs rem : List Nat) (j : Nat) : Decidable (removedIdxP tabs rem j) :=
  inferInstanceAs (Decidable (_ ∧ _))

/-! ## LabeledComponent (src/unnamed/part_006)

The internal UI of a labeled component holds the label component and the
other children (the enclosed control, or several of them for
`LabeledRadioButtonGroup`).  There is exactly one label child. -/

/-- Position of the label (part_006 lines 7-12). -/
inductive LabelPosition where
  | TOP
  | END
  | BOTTOM
  | START
deriving Repr, DecidableEq

/-- Alignment of the label (part_006 lines 17-21). -/
inductive LabelAlignment where
  | START
  | CENTER
  | END
deriving Repr, DecidableEq

/-- One child of the internal UI of a labeled component: the label, or any
other component (identified by a `Nat`). -/
inductive LCChild where
  | label
  | comp (id : Nat)
deriving Repr, DecidableEq

/-- State of a `LabeledComponent`: the `#initialized` flag, the stored
position/alignment, the CSS classes of the component, and the children of
the internal UI in order. -/
structure LCState where
  inited : Bool
  lblPosition : LabelPosition
  lblAlignment : LabelAlignment
  classes : List String
  children : List LCChild
deriving Repr, DecidableEq

/-- Model of `this.ui.insert(0, this.label)` on the UI children: a
component container moves an already-contained child, so the label ends up
as the first child. -/
def uiInsertLabelFront (cs : List LCChild) : List LCChild :=
  .label :: cs.filter (fun c => c ≠ .label)

/-- Model of `this.ui.append(this.label)` on the UI children: the label
ends up as the last child. -/
def uiAppendLabel (cs : List LCChild) : List LCChild :=
  cs.filter (fun c => c ≠ .label) ++ [.label]

/-- CSS class attached by `labelPosition` for each position value. -/
def posClass : LabelPosition → String
  | .TOP => "p-top"
  | .END => "p-end"
  | .BOTTOM => "p-bottom"
  | .START => "p-start"

/-- CSS class attached by `labelAlignment` for each alignment value. -/
def alignClass : LabelAlignment → String
  | .START => "a-start"
  | .CENTER => "a-center"
  | .END => "a-end"

/-- Transcription of `LabeledComponent.labelPosition(v)` (part_006 lines
114-139): after initialization an unchanged value returns early; otherwise
the stored position is updated, all four `p-` classes are removed, and the
switch moves the label (`Children[0] !== this.label` guards `insert(0)` for
`TOP`/`START`, `Children[1] !== this.label` guards `append` for
`END`/`BOTTOM`) and adds the matching class. -/
def labelPositionOp (v : LabelPosition) (s : LCState) : LCState :=
  if s.inited = true ∧ v = s.lblPosition then s
  else
    let cls := removeClass "p-start" (removeClass "p-bottom"
      (removeClass "p-end" (removeClass "p-top" s.classes)))
    match v with
    | .TOP =>
      { s with
        lblPosition := v
        classes := addClass "p-top" cls
        children := if s.children.get? 0 ≠ some .label then
          uiInsertLabelFront s.children else s.children }
    | .END =>
      { s with
        lblPosition := v
        classes := addClass "p-end" cls
        children := if s.children.get? 1 ≠ some .label then
          uiAppendLabel s.children else s.children }
    | .BOTTOM =>
      { s with
        lblPosition := v
        classes := addClass "p-bottom" cls
        children := if s.children.get? 1 ≠ some .label then
          uiAppendLabel s.children else s.children }
    | .START =>
      { s with
        lblPosition := v
        classes := addClass "p-start" cls
        children := if s.children.get? 0 ≠ some .label then
          uiInsertLabelFront s.children else s.children }

/-- Transcription of `LabeledComponent.labelAlignment(v)` (part_006 lines
157-175): after initialization an unchanged value returns early; otherwise
the stored alignment is updated, the three `a-` classes are removed and the
one matching `v` is added. -/
def labelAlignmentOp (v : LabelAlignment) (s : LCState) : LCState :=
  if s.inited = true ∧ v = s.lblAlignment then s
  else
    let cls := removeClass "a-end" (removeClass "a-center"
      (removeClass "a-start" s.classes))
    match v with
    | .START => { s with lblAlignment := v, classes := addClass "a-start" cls }
    | .CENTER => { s with lblAlignment := v, classes := addClass "a-center" cls }
    | .END => { s with lblAlignment := v, classes := addClass "a-end" cls }

/-- Well-formedness of a labeled component, as established by construction
and preserved by the setters: exactly one label child, the label first or
last matching the stored position, exactly the matching `p-` class, and
exactly the matching `a-` class. -/
def LCWF (s : LCState) : Prop :=
  s.children.count .label = 1
  ∧ ((s.lblPosition = .TOP ∨ s.lblPosition = .START) →
      s.children.head? = some .label)
  ∧ ((s.lblPosition = .END ∨ s.lblPosition = .BOTTOM) →
      s.children.getLast? = some .label)
  ∧ (∀ p : LabelPosition, posClass p ∈ s.classes ↔ p = s.lblPosition)
  ∧ (∀ a : LabelAlignment, alignClass a ∈ s.classes ↔ a = s.lblAlignment)

/-! ## DisclosureContainer (src/src/DisclosureContainer.ts) -/

/-- Captions and titles for the disclosure button
(`DisclosureContainerLabels`): the first component of each pair is for the
undisclosed state, the second for the disclosed state. -/
structure DCLabels where
  captionUndisclosed : String
  captionDisclosed : String
  titleUndisclosed : String
  titleDisclosed : String
deriving Repr, DecidableEq

/-- State of a `DisclosureContainer`: the `_disclosed` and
`_weakUndisclosed` flags, the stored labels, the CSS classes of the
component, the text and title of the disclosure button, and whether the
inner content container is mounted in the internal UI. -/
structure DCState where
  disclosed : Bool
  weakUndisclosed : Bool
  labels : DCLabels
  classes : List String
  btnText : String
  btnTitle : String
  contentMounted : Bool
deriving Repr, DecidableEq

/-- Transcription of `DisclosureContainer.disclosed(v)` (lines 232-257).
`cancelDisclose` says whether some handler of the dispatched cancelable
`disclose` event calls `preventDefault()` (so that `dispatch` returns
`false`); the event is dispatched, and can only cancel, when the value
actually changes.  On a state change the `disclosed`/`undisclosed` classes
are swapped, the button caption/title are set from the stored labels, and
(unless `_weakUndisclosed`) the content container is appended to or removed
from the internal UI. -/
def disclosedOp (cancelDisclose : Bool) (v : Bool) (s : DCState) : DCState :=
  if v ≠ s.disclosed then
    if cancelDisclose then s
    else if v then
      { s with
        disclosed := true
        classes := addClass "disclosed" (removeClass "undisclosed" s.classes)
        btnText := s.labels.captionDisclosed
        btnTitle := s.labels.titleDisclosed
        contentMounted := if s.weakUndisclosed then s.contentMounted else true }
    else
      { s with
        disclosed := false
        classes := addClass "undisclosed" (removeClass "disclosed" s.classes)
        btnText := s.labels.captionUndisclosed
        btnTitle := s.labels.titleUndisclosed
        contentMounted := if s.weakUndisclosed then s.contentMounted else false }
  else s

/-- Transcription of `DisclosureContainer.toggleDisclosed()` (lines
263-266), which is also what a click on the disclosure button runs
(`buildUI`, line 377: `() => this.Disclosed = !this.Disclosed`). -/
def toggleDisclosedOp (cancelDisclose : Bool) (s : DCState) : DCState :=
  disclosedOp cancelDisclose (!s.disclosed) s

/-- Well-formedness of a disclosure container, as established by the
constructor: the `disclosed`/`undisclosed` class, the button caption/title
and the mounting of the content container all agree with the `_disclosed`
and `_weakUndisclosed` flags. -/
def DCWF (s : DCState) : Prop :=
  ("disclosed" ∈ s.classes ↔ s.disclosed = true)
  ∧ ("undisclosed" ∈ s.classes ↔ s.disclosed = false)
  ∧ s.btnText = (if s.disclosed then s.labels.captionDisclosed
      else s.labels.captionUndisclosed)
  ∧ s.btnTitle = (if s.disclosed then s.labels.titleDisclosed
      else s.labels.titleUndisclosed)
  ∧ s.contentMounted = (s.disclosed || s.weakUndisclosed)

/-! ## LabeledRadioButtonGroup (src/unnamed/part_005)

The children of the group (`this._children`) are the label `Span` and the
`LabeledRadioButton` instances; the loops of `value`/`Value` skip every
child that is not a `LabeledRadioButton`. -/

/-- One child of a `LabeledRadioButtonGroup`: the label span, or a labeled
radio button with its value and checked state. -/
inductive RBChild where
  | label
  | rb (value : String) (checked : Bool)
deriving Repr, DecidableEq

/-- Checked state of a child (`false` for the label, which the
`instanceof LabeledRadioButton` tests skip). -/
def isCheckedRB : RBChild → Bool
  | .label => false
  | .rb _ c => c

/-- Whether a child is a radio button carrying value `v`. -/
def hasValueRB (v : String) : RBChild → Bool
  | .label => false
  | .rb w _ => w = v

/-- Transcription of the getter `LabeledRadioButtonGroup.Value` (part_005
lines 99-106): the value of the first checked radio button, or the empty
string. -/
def rbgValueGet : List RBChild → String
  | [] => ""
  | .label :: rest => rbgValueGet rest
  | .rb v c :: rest => if c then v else rbgValueGet rest

/-- Model of the loops in `LabeledRadioButtonGroup.value` that call
`item.checked(false)` on every contained radio button. -/
def rbgUncheckAll (cs : List RBChild) : List RBChild :=
  cs.map (fun c => match c with
    | .label => .label
    | .rb v _ => .rb v false)

/-- Model of the second loop of `LabeledRadioButtonGroup.value(v)` for a
non-null `v`: the first radio button whose value equals `v` is checked and
the loop breaks. -/
def rbgCheckFirst (v : String) : List RBChild → List RBChild
  | [] => []
  | .label :: rest => .label :: rbgCheckFirst v rest
  | .rb w c :: rest =>
    if w = v then .rb w true :: rest
    else .rb w c :: rbgCheckFirst v rest

/-- Transcription of `LabeledRadioButtonGroup.value(v)` (part_005 lines
118-139): `null` unchecks all radio buttons; a string first unchecks all
radio buttons and then checks the first one whose value equals `v`. -/
def rbgValueSet (v : Option String) (cs : List RBChild) : List RBChild :=
  match v with
  | none => rbgUncheckAll cs
  | some v => rbgCheckFirst v (rbgUncheckAll cs)

/-- Index of the first radio button child carrying value `v` (used to state
which button the `value` setter checks). -/
def firstValueIdx (v : String) : List RBChild → Option Nat
  | [] => none
  | c :: cs =>
    if hasValueRB v c then some 0
    else (firstValueIdx v cs).map (· + 1)

/-- The index activated by `previous()`: the last index when the current
index is `0`, otherwise the current index minus one. -/
def cyclicPrevIdx (len i : Nat) : Nat :=
  if i = 0 then len - 1 else i - 1

/-- The index activated by `next()`: index `0` when the current index is the
last one, otherwise the current index plus one. -/
def cyclicNextIdx (len i : Nat) : Nat :=
  if i = len - 1 then 0 else i + 1


end VTSpec

namespace VTSpec

/-! ## Theorems for claim C10 (`#putIntoRange`). -/

/-- Clamping normal form of `putIntoRange`: for any argument order it equals
`max (min n hi) lo` where `lo`/`hi` are the smaller/larger range end. -/
lemma putIntoRange_eq_clamp (n e1 e2 : ℚ) :
    putIntoRange n e1 e2 = max (min n (max e1 e2)) (min e1 e2) := by
  unfold putIntoRange
  rcases lt_trichotomy e1 e2 with h | h | h
  · rw [if_neg (ne_of_lt h), if_pos h, min_eq_left h.le, max_eq_right h.le]
  · subst h
    simp
  · rw [if_neg (ne_of_gt h), if_neg (not_lt_of_gt h), min_eq_right h.le,
      max_eq_left h.le]

/-- C10: `ScrollContainer.#putIntoRange(n, e1, e2)` is total and returns a
value in the closed interval from `min e1 e2` to `max e1 e2`; it returns `n`
itself exactly when `n` already lies in that interval; when `n` lies below
the interval it returns the lower end and when `n` lies above it returns the
upper end (each time the interval end nearest to `n`); and it returns `e1`
when `e1 = e2`. -/
theorem putIntoRange_spec (n e1 e2 : ℚ) :
    (min e1 e2 ≤ putIntoRange n e1 e2 ∧ putIntoRange n e1 e2 ≤ max e1 e2)
    ∧ (putIntoRange n e1 e2 = n ↔ (min e1 e2 ≤ n ∧ n ≤ max e1 e2))
    ∧ (n < min e1 e2 →
        (putIntoRange n e1 e2 = min e1 e2
          ∧ |putIntoRange n e1 e2 - n| ≤ |e1 - n|
          ∧ |putIntoRange n e1 e2 - n| ≤ |e2 - n|))
    ∧ (max e1 e2 < n →
        (putIntoRange n e1 e2 = max e1 e2
          ∧ |putIntoRange n e1 e2 - n| ≤ |e1 - n|
          ∧ |putIntoRange n e1 e2 - n| ≤ |e2 - n|))
    ∧ (e1 = e2 → putIntoRange n e1 e2 = e1) := by
  rw [putIntoRange_eq_clamp]
  set lo := min e1 e2 with hlo
  set hi := max e1 e2 with hhi
  have hlohi : lo ≤ hi := min_le_max
  have hlo1 : lo ≤ e1 := min_le_left _ _
  have hlo2 : lo ≤ e2 := min_le_right _ _
  have hhi1 : e1 ≤ hi := le_max_left _ _
  have hhi2 : e2 ≤ hi := le_max_right _ _
  refine ⟨⟨le_max_right _ _, max_le (min_le_right n hi) hlohi⟩,
    ?_, ?_, ?_, ?_⟩
  · constructor
    · intro h
      constructor
      · rw [← h]; exact le_max_right _ _
      · rcases le_total n hi with h2 | h2
        · exact h2
        · rw [min_eq_right h2] at h
          rw [← h]; exact max_le le_rfl hlohi
    · rintro ⟨h1, h2⟩
      rw [min_eq_left h2, max_eq_left h1]
  · intro h
    have h1 : n ≤ hi := (h.trans_le hlohi).le
    rw [min_eq_left h1, max_eq_right h.le]
    have e1n : |e1 - n| = e1 - n := abs_of_nonneg (by linarith [h.trans_le hlo1])
    have e2n : |e2 - n| = e2 - n := abs_of_nonneg (by linarith [h.trans_le hlo2])
    refine ⟨rfl, ?_, ?_⟩
    · rw [e1n, abs_of_nonneg (by linarith)]; linarith
    · rw [e2n, abs_of_nonneg (by linarith)]; linarith
  · intro h
    have h1 : hi ≤ n := h.le
    rw [min_eq_right h1, max_eq_left hlohi]
    have e1n : |e1 - n| = n - e1 := abs_of_nonpos (by linarith) |>.trans (by ring)
    have e2n : |e2 - n| = n - e2 := abs_of_nonpos (by linarith) |>.trans (by ring)
    refine ⟨rfl, ?_, ?_⟩
    · rw [e1n, abs_of_nonpos (by linarith)]; linarith
    · rw [e2n, abs_of_nonpos (by linarith)]; linarith
  · intro h
    rw [hlo, hhi, h, min_self, max_self, max_eq_right (min_le_right n e2)]

/-- Witness for `putIntoRange_spec` at `n = 5`, `e1 = 0`, `e2 = 3` (the
statement has no `Prop` hypotheses; this instantiation documents a concrete
evaluation). -/
theorem putIntoRange_spec_witness :
    (min (0:ℚ) 3 ≤ putIntoRange 5 0 3 ∧ putIntoRange 5 0 3 ≤ max (0:ℚ) 3)
    ∧ (putIntoRange 5 0 3 = 5 ↔ (min (0:ℚ) 3 ≤ 5 ∧ (5:ℚ) ≤ max 0 3))
    ∧ ((5:ℚ) < min 0 3 →
        (putIntoRange 5 0 3 = min 0 3
          ∧ |putIntoRange 5 0 3 - 5| ≤ |0 - 5|
          ∧ |putIntoRange 5 0 3 - 5| ≤ |3 - 5|))
    ∧ (max (0:ℚ) 3 < 5 →
        (putIntoRange 5 0 3 = max 0 3
          ∧ |putIntoRange 5 0 3 - 5| ≤ |0 - 5|
          ∧ |putIntoRange 5 0 3 - 5| ≤ |3 - 5|))
    ∧ ((0:ℚ) = 3 → putIntoRange 5 0 3 = 0) :=
  putIntoRange_spec 5 0 3

/-! ## Theorems for claim C2 (`#repositionScrollBars`). -/

/-- Clamping form of `putIntoRange` over the range from `0` to a positive
`r`, together with the resulting bounds. -/
lemma putIntoRange_zero_pos (x r : ℚ) (hr : 0 < r) :
    putIntoRange x 0 r = max 0 (min x r)
    ∧ 0 ≤ putIntoRange x 0 r ∧ putIntoRange x 0 r ≤ r := by
  have hc := putIntoRange_eq_clamp x 0 r
  rw [max_eq_right hr.le, min_eq_left hr.le] at hc
  refine ⟨hc.trans (max_comm _ _), ?_, ?_⟩
  · rw [hc]; exact le_max_right _ _
  · rw [hc]; exact max_le (min_le_right _ _) hr.le

/-- C2: for a scroll container with the synthetic (non-native) scroll bars
enabled and positive thumb travel ranges, `#repositionScrollBars` places the
horizontal thumb at offset
`hBarScrollRange * (isRTL ? -scrollLeft : scrollLeft) / hScrollRange`
clamped into the closed interval from `0` to `hBarScrollRange` (the scroll
offset is negated in right-to-left mode), and the vertical thumb at
`vBarScrollRange * scrollTop / vScrollRange` clamped into the interval from
`0` to `vBarScrollRange`; the content scroll ranges precomputed by
`#syncScrollBarGeometry` are content size minus viewport size. -/
theorem repositionScrollBars_spec (s : ScrollState)
    (hnat : s.native = false) (hhor : s.horizontal = true)
    (hver : s.vertical = true)
    (hhr : 0 < s.hBarScrollRange) (hvr : 0 < s.vBarScrollRange) :
    repositionHThumbInset s =
      some (max 0 (min (s.hBarScrollRange *
        (if s.isRTL then -s.scrollLeft else s.scrollLeft) / s.hScrollRange)
        s.hBarScrollRange))
    ∧ repositionVThumbInset s =
      some (max 0 (min (s.vBarScrollRange * s.scrollTop / s.vScrollRange)
        s.vBarScrollRange))
    ∧ (∀ x, repositionHThumbInset s = some x → 0 ≤ x ∧ x ≤ s.hBarScrollRange)
    ∧ (∀ x, repositionVThumbInset s = some x → 0 ≤ x ∧ x ≤ s.vBarScrollRange)
    ∧ (∀ z, (syncScrollRanges s z).hScrollRange = z.scrollWidth - z.offsetWidth
        ∧ (syncScrollRanges s z).vScrollRange = z.scrollHeight - z.offsetHeight) := by
  have hH : repositionHThumbInset s =
      some (putIntoRange (s.hBarScrollRange *
        (if s.isRTL then -s.scrollLeft else s.scrollLeft) / s.hScrollRange)
        0 s.hBarScrollRange) := by
    unfold repositionHThumbInset
    rw [hnat, hhor]
    simp [hhr]
  have hV : repositionVThumbInset s =
      some (putIntoRange (s.vBarScrollRange * s.scrollTop / s.vScrollRange)
        0 s.vBarScrollRange) := by
    unfold repositionVThumbInset
    rw [hnat, hver]
    simp [hvr]
  obtain ⟨he, hlb, hub⟩ := putIntoRange_zero_pos (s.hBarScrollRange *
    (if s.isRTL then -s.scrollLeft else s.scrollLeft) / s.hScrollRange) _ hhr
  obtain ⟨he2, hlb2, hub2⟩ := putIntoRange_zero_pos
    (s.vBarScrollRange * s.scrollTop / s.vScrollRange) _ hvr
  refine ⟨by rw [hH, he], by rw [hV, he2], ?_, ?_, fun z => ⟨rfl, rfl⟩⟩
  · intro x hx
    rw [hH] at hx
    cases hx
    exact ⟨hlb, hub⟩
  · intro x hx
    rw [hV] at hx
    cases hx
    exact ⟨hlb2, hub2⟩

/-- Witness for `repositionScrollBars_spec`: a concrete non-native state
with both bars enabled, `hBarScrollRange = 6`, `hScrollRange = 100`,
`scrollLeft = 30`, `vBarScrollRange = 8`, `vScrollRange = 200` and
`scrollTop = 40`. -/
theorem repositionScrollBars_spec_witness :
    repositionHThumbInset ⟨true, true, false, false, 30, 40, 100, 6, 200, 8⟩ =
      some (max 0 (min ((6:ℚ) * 30 / 100) 6))
    ∧ repositionVThumbInset ⟨true, true, false, false, 30, 40, 100, 6, 200, 8⟩ =
      some (max 0 (min ((8:ℚ) * 40 / 200) 8)) := by
  have h := repositionScrollBars_spec ⟨true, true, false, false, 30, 40, 100, 6, 200, 8⟩
    rfl rfl rfl (by decide) (by decide)
  exact ⟨by simpa using h.1, by simpa using h.2.1⟩

/-! ## Theorems for claim C3 (`#syncScrollBarGeometry` thumb lengths). -/

/-- C3 (counterexample): the claim states that whenever the viewport size is
greater than or equal to the content size the bar overlay is hidden and the
thumb length is set to 100 percent; at viewport size `0` and content size
`0` (for instance a hidden scroll container) the code instead substitutes
`0.000001` for the zero content size, leaves the overlay displayed and sets
the thumb length to 0 percent. -/
theorem syncScrollBarGeometry_cex :
    ((0:ℚ) ≤ 0)
    ∧ (syncAxisGeometry 0 0).overlayHidden = false
    ∧ (syncAxisGeometry 0 0).thumbLengthPct = 0
    ∧ syncAxisGeometry 0 0 ≠ ⟨true, 100⟩ := by
  have h1 : ((0:ℚ) < 1 / 1000000) := by norm_num
  refine ⟨le_rfl, ?_, ?_, ?_⟩
  · simp [syncAxisGeometry, h1]
  · simp [syncAxisGeometry, h1]
  · intro h
    have := congrArg SyncAxisResult.overlayHidden h
    simp [syncAxisGeometry, h1] at this

/-- C3 (amended): for an enabled synthetic scroll bar, whenever the content
size exceeds the viewport size the thumb length is set to viewport size
divided by content size as a percentage of the bar and the overlay is shown;
whenever the viewport size is greater than or equal to the content size
*and the content size is positive*, the bar overlay is hidden and the thumb
length is set to 100 percent (when the content size is zero the code
substitutes `0.000001` for it, so a zero viewport leaves the overlay
displayed with thumb length 0 percent, see `syncScrollBarGeometry_cex`).
Both the horizontal and the vertical block behave this way. -/
theorem syncScrollBarGeometry_spec (w sw h sh : ℚ)
    (hw : 0 ≤ w) (hh : 0 ≤ h) :
    (w < sw → syncAxisGeometry w sw = ⟨false, w / sw * 100⟩)
    ∧ (0 < sw → sw ≤ w → syncAxisGeometry w sw = ⟨true, 100⟩)
    ∧ (h < sh → syncAxisGeometryV h sh = ⟨false, h / sh * 100⟩)
    ∧ (0 < sh → sh ≤ h → syncAxisGeometryV h sh = ⟨true, 100⟩) := by
  refine ⟨?_, ?_, ?_, ?_⟩
  · intro hlt
    have hne : sw ≠ 0 := (hw.trans_lt hlt).ne'
    simp [syncAxisGeometry, hne, hlt]
  · intro hpos hle
    simp [syncAxisGeometry, hpos.ne', not_lt.mpr hle]
  · intro hlt
    have hne : sh ≠ 0 := (hh.trans_lt hlt).ne'
    simp [syncAxisGeometryV, hne, hlt]
  · intro hpos hle
    simp [syncAxisGeometryV, hpos.ne', not_lt.mpr hle]

/-- Witness for `syncScrollBarGeometry_spec` at viewport sizes `2`/`3` and
content sizes `4`/`5`. -/
theorem syncScrollBarGeometry_spec_witness :
    ((2:ℚ) < 4 → syncAxisGeometry 2 4 = ⟨false, 2 / 4 * 100⟩)
    ∧ ((0:ℚ) < 4 → (4:ℚ) ≤ 2 → syncAxisGeometry 2 4 = ⟨true, 100⟩)
    ∧ ((3:ℚ) < 5 → syncAxisGeometryV 3 5 = ⟨false, 3 / 5 * 100⟩)
    ∧ ((0:ℚ) < 5 → (5:ℚ) ≤ 3 → syncAxisGeometryV 3 5 = ⟨true, 100⟩) :=
  syncScrollBarGeometry_spec 2 4 3 5 (by decide) (by decide)

/-! ## Class-list membership lemmas. -/

/-- Membership after `classList.add`. -/
lemma mem_addClass (a c : String) (cs : List String) :
    a ∈ addClass c cs ↔ (a = c ∨ a ∈ cs) := by
  unfold addClass
  split
  · rename_i h
    constructor
    · exact Or.inr
    · rintro (rfl | h2)
      · exact h
      · exact h2
  · simp [List.mem_append, or_comm]

/-- Membership after `classList.remove`. -/
lemma mem_removeClass (a c : String) (cs : List String) :
    a ∈ removeClass c cs ↔ (a ∈ cs ∧ a ≠ c) := by
  unfold removeClass
  simp

/-! ## Theorems for claim C8 (cancellation of the `disclose` event). -/

/-- C8: when a handler of the `disclose` event cancels it,
`DisclosureContainer.disclosed(v)` leaves the whole component state
unchanged (the `Disclosed` flag, the CSS classes including the
`disclosed`/`undisclosed` and `weak` classes, the disclosure-button caption
and title, and the mounting of the inner content container): the event is
dispatched before any mutation and a cancelled dispatch returns
immediately. -/
theorem disclosed_cancel_noop (s : DCState) (v : Bool) :
    disclosedOp true v s = s := by
  unfold disclosedOp
  split
  · simp
  · rfl

/-! ## Theorems for claim C6 (toggling a disclosure container). -/

/-- C6: with no handler cancelling the `disclose` event, a click on the
disclosure button (which runs `toggleDisclosed()`) inverts the `Disclosed`
state, and toggling twice restores the original `Disclosed` state, the
original `disclosed`/`undisclosed` CSS classes, the original button
caption and title, and the original mounting of the content container. -/
theorem toggleDisclosed_involution (s : DCState) (hwf : DCWF s) :
    (toggleDisclosedOp false s).disclosed = !s.disclosed
    ∧ (toggleDisclosedOp false (toggleDisclosedOp false s)).disclosed = s.disclosed
    ∧ ("disclosed" ∈ (toggleDisclosedOp false (toggleDisclosedOp false s)).classes
        ↔ "disclosed" ∈ s.classes)
    ∧ ("undisclosed" ∈ (toggleDisclosedOp false (toggleDisclosedOp false s)).classes
        ↔ "undisclosed" ∈ s.classes)
    ∧ (toggleDisclosedOp false (toggleDisclosedOp false s)).btnText = s.btnText
    ∧ (toggleDisclosedOp false (toggleDisclosedOp false s)).btnTitle = s.btnTitle
    ∧ (toggleDisclosedOp false (toggleDisclosedOp false s)).contentMounted
        = s.contentMounted := by
  obtain ⟨hc1, hc2, ht, hti, hm⟩ := hwf
  cases hd : s.disclosed
  · cases hw : s.weakUndisclosed <;>
      simp_all [toggleDisclosedOp, disclosedOp, mem_addClass, mem_removeClass]
  · cases hw : s.weakUndisclosed <;>
      simp_all [toggleDisclosedOp, disclosedOp, mem_addClass, mem_removeClass]

/-- Witness for `toggleDisclosed_involution`: a disclosed, non-weak
container with matching class list, caption and title. -/
theorem toggleDisclosed_involution_witness :
    (toggleDisclosedOp false ⟨true, false, ⟨"+", "-", "", ""⟩, ["disclosed"], "-", "", true⟩).disclosed = !true
    ∧ (toggleDisclosedOp false (toggleDisclosedOp false
        ⟨true, false, ⟨"+", "-", "", ""⟩, ["disclosed"], "-", "", true⟩)).disclosed = true
    ∧ ("disclosed" ∈ (toggleDisclosedOp false (toggleDisclosedOp false
        ⟨true, false, ⟨"+", "-", "", ""⟩, ["disclosed"], "-", "", true⟩)).classes
        ↔ "disclosed" ∈ ["disclosed"])
    ∧ ("undisclosed" ∈ (toggleDisclosedOp false (toggleDisclosedOp false
        ⟨true, false, ⟨"+", "-", "", ""⟩, ["disclosed"], "-", "", true⟩)).classes
        ↔ "undisclosed" ∈ ["disclosed"])
    ∧ (toggleDisclosedOp false (toggleDisclosedOp false
        ⟨true, false, ⟨"+", "-", "", ""⟩, ["disclosed"], "-", "", true⟩)).btnText = "-"
    ∧ (toggleDisclosedOp false (toggleDisclosedOp false
        ⟨true, false, ⟨"+", "-", "", ""⟩, ["disclosed"], "-", "", true⟩)).btnTitle = ""
    ∧ (toggleDisclosedOp false (toggleDisclosedOp false
        ⟨true, false, ⟨"+", "-", "", ""⟩, ["disclosed"], "-", "", true⟩)).contentMounted = true :=
  toggleDisclosed_involution ⟨true, false, ⟨"+", "-", "", ""⟩, ["disclosed"], "-", "", true⟩
    (by refine ⟨?_, ?_, ?_, ?_, ?_⟩ <;> decide)

/-! ## Theorems for claim C5 (`LabeledRadioButtonGroup.value`). -/

/-- Unchecking all radio buttons leaves every child unchecked. -/
lemma rbgUncheckAll_unchecked (cs : List RBChild) :
    ∀ c ∈ rbgUncheckAll cs, isCheckedRB c = false := by
  intro c hc
  simp only [rbgUncheckAll, List.mem_map] at hc
  obtain ⟨x, _, rfl⟩ := hc
  cases x <;> rfl

/-- Unchecking does not change which children are radio buttons with
value `v`. -/
lemma rbgUncheckAll_hasValue (v : String) (cs : List RBChild) :
    (rbgUncheckAll cs).any (hasValueRB v) = cs.any (hasValueRB v) := by
  induction cs with
  | nil => rfl
  | cons head tail ih =>
    cases head <;> simp [rbgUncheckAll, hasValueRB] at ih ⊢ <;>
      rw [← ih]

/-- Unchecking does not change the index of the first radio button with
value `v`. -/
lemma rbgUncheckAll_firstValueIdx (v : String) (cs : List RBChild) :
    firstValueIdx v (rbgUncheckAll cs) = firstValueIdx v cs := by
  induction cs with
  | nil => rfl
  | cons head tail ih =>
    cases head <;> simp [rbgUncheckAll, firstValueIdx, hasValueRB] at ih ⊢ <;>
      rw [ih]

/-- The `Value` getter returns the empty string on a group with no checked
radio button. -/
lemma rbgValueGet_of_unchecked (cs : List RBChild)
    (h : ∀ c ∈ cs, isCheckedRB c = false) : rbgValueGet cs = "" := by
  induction cs with
  | nil => rfl
  | cons head tail ih =>
    have htail := fun c hc => h c (List.mem_cons_of_mem _ hc)
    cases head with
    | label => exact ih htail
    | rb w c =>
      have hc := h (.rb w c) (List.mem_cons_self _ _)
      simp only [isCheckedRB] at hc
      subst hc
      simpa [rbgValueGet] using ih htail

/-- Behaviour of the check-first loop on a fully unchecked list: it checks
exactly the first radio button with value `v` (if any), and the getter then
reads back `v` (or the empty string if there is none). -/
lemma rbgCheckFirst_spec (v : String) (cs : List RBChild)
    (h : ∀ c ∈ cs, isCheckedRB c = false) :
    ((rbgCheckFirst v cs).countP isCheckedRB =
      if cs.any (hasValueRB v) then 1 else 0)
    ∧ (∀ i c, (rbgCheckFirst v cs).get? i = some c → isCheckedRB c = true →
        firstValueIdx v cs = some i)
    ∧ (rbgValueGet (rbgCheckFirst v cs) =
        if cs.any (hasValueRB v) then v else "") := by
  induction cs with
  | nil =>
    refine ⟨rfl, ?_, rfl⟩
    intro i c hc
    simp [rbgCheckFirst] at hc
  | cons head tail ih =>
    have htail := fun c hc => h c (List.mem_cons_of_mem _ hc)
    obtain ⟨ihc, ihg, ihv⟩ := ih htail
    cases head with
    | label =>
      refine ⟨?_, ?_, ?_⟩
      · simpa [rbgCheckFirst, List.countP_cons, isCheckedRB, hasValueRB] using ihc
      · intro i c hget hck
        cases i with
        | zero =>
          simp only [rbgCheckFirst, List.get?] at hget
          cases hget
          simp [isCheckedRB] at hck
        | succ j =>
          simp only [rbgCheckFirst, List.get?] at hget
          have := ihg j c hget hck
          simp [firstValueIdx, hasValueRB, this]
      · simpa [rbgCheckFirst, rbgValueGet, hasValueRB] using ihv
    | rb w c =>
      have hc := h (.rb w c) (List.mem_cons_self _ _)
      simp only [isCheckedRB] at hc
      subst hc
      by_cases hw : w = v
      · subst hw
        refine ⟨?_, ?_, ?_⟩
        · have h0 : tail.countP isCheckedRB = 0 :=
            List.countP_eq_zero.mpr (by
              intro a ha
              simp [htail a ha])
          simp [rbgCheckFirst, List.countP_cons, isCheckedRB, hasValueRB, h0]
        · intro i c hget hck
          cases i with
          | zero => simp [firstValueIdx, hasValueRB]
          | succ j =>
            simp only [rbgCheckFirst, if_pos rfl, List.get?] at hget
            have := htail c (List.get?_mem hget)
            rw [this] at hck
            cases hck
        · simp [rbgCheckFirst, rbgValueGet, hasValueRB]
      · refine ⟨?_, ?_, ?_⟩
        · simpa [rbgCheckFirst, hw, List.countP_cons, isCheckedRB, hasValueRB] using ihc
        · intro i c hget hck
          cases i with
          | zero =>
            simp only [rbgCheckFirst, if_neg hw, List.get?] at hget
            cases hget
            simp [isCheckedRB] at hck
          | succ j =>
            simp only [rbgCheckFirst, if_neg hw, List.get?] at hget
            have := ihg j c hget hck
            simp [firstValueIdx, hasValueRB, hw, this]
        · simpa [rbgCheckFirst, hw, rbgValueGet, hasValueRB] using ihv

/-- C5: `value(null)` leaves no contained radio button checked and the
`Value` getter then returns the empty string; for a string `v`, `value(v)`
first unchecks all buttons and then checks exactly the first button whose
value equals `v` (so at most one button is checked afterwards, every
checked button carries value `v` and sits at the first position carrying
`v`), and the `Value` getter round-trips: it returns `v` when some button
carries value `v` and the empty string when none does. -/
theorem radioGroupValue_spec (cs : List RBChild) (v : String) :
    (∀ c ∈ rbgValueSet none cs, isCheckedRB c = false)
    ∧ rbgValueGet (rbgValueSet none cs) = ""
    ∧ ((rbgValueSet (some v) cs).countP isCheckedRB =
        if cs.any (hasValueRB v) then 1 else 0)
    ∧ (∀ i c, (rbgValueSet (some v) cs).get? i = some c →
        isCheckedRB c = true → firstValueIdx v cs = some i)
    ∧ rbgValueGet (rbgValueSet (some v) cs) =
        (if cs.any (hasValueRB v) then v else "") := by
  obtain ⟨hc, hg, hv⟩ := rbgCheckFirst_spec v (rbgUncheckAll cs)
    (rbgUncheckAll_unchecked cs)
  refine ⟨rbgUncheckAll_unchecked cs,
    rbgValueGet_of_unchecked _ (rbgUncheckAll_unchecked cs), ?_, ?_, ?_⟩
  · rw [show rbgValueSet (some v) cs = rbgCheckFirst v (rbgUncheckAll cs) from rfl,
      hc, rbgUncheckAll_hasValue]
  · intro i c hget hck
    have := hg i c hget hck
    rwa [rbgUncheckAll_firstValueIdx] at this
  · rw [show rbgValueSet (some v) cs = rbgCheckFirst v (rbgUncheckAll cs) from rfl,
      hv, rbgUncheckAll_hasValue]

/-- Witness for `radioGroupValue_spec` on a three-child group (label and
two radio buttons) with `v` present on the second button. -/
theorem radioGroupValue_spec_witness :
    (∀ c ∈ rbgValueSet none [.label, .rb "a" true, .rb "b" false],
        isCheckedRB c = false)
    ∧ rbgValueGet (rbgValueSet none [.label, .rb "a" true, .rb "b" false]) = ""
    ∧ ((rbgValueSet (some "b") [.label, .rb "a" true, .rb "b" false]).countP
        isCheckedRB =
        if ([RBChild.label, .rb "a" true, .rb "b" false]).any (hasValueRB "b")
        then 1 else 0)
    ∧ (∀ i c,
        (rbgValueSet (some "b") [.label, .rb "a" true, .rb "b" false]).get? i
          = some c →
        isCheckedRB c = true →
        firstValueIdx "b" [.label, .rb "a" true, .rb "b" false] = some i)
    ∧ rbgValueGet (rbgValueSet (some "b") [.label, .rb "a" true, .rb "b" false])
        = (if ([RBChild.label, .rb "a" true, .rb "b" false]).any (hasValueRB "b")
          then "b" else "") :=
  radioGroupValue_spec [.label, .rb "a" true, .rb "b" false] "b"

/-! ## Theorems for claim C7 (`labelPosition`/`labelAlignment`). -/

/-- A list with a single `label` occurrence cannot have the label both at
the head and at the second position. -/
lemma not_label_head_and_second (cs : List LCChild)
    (hcount : cs.count .label = 1) :
    ¬ (cs.head? = some .label ∧ cs.get? 1 = some .label) := by
  rintro ⟨h0, h1⟩
  cases cs with
  | nil => cases h0
  | cons a t =>
    cases t with
    | nil => cases h1
    | cons b t2 =>
      simp only [List.head?] at h0
      cases h0
      simp only [List.get?] at h1
      cases h1
      simp [List.count_cons] at hcount

/-- C7: for every well-formed labeled component, `labelPosition(v)` makes
the `LabelPosition` getter return `v`, leaves exactly the `p-` class
matching `v` on the component, and places the label as the first child of
the internal UI for `TOP`/`START` and as the last child for
`END`/`BOTTOM`; and `labelAlignment(w)` makes the getter return `w` and
leaves exactly the `a-` class matching `w`. -/
theorem labelPosition_spec (s : LCState) (hwf : LCWF s) (v : LabelPosition)
    (w : LabelAlignment) :
    ((labelPositionOp v s).lblPosition = v)
    ∧ (∀ p : LabelPosition, posClass p ∈ (labelPositionOp v s).classes ↔ p = v)
    ∧ ((v = .TOP ∨ v = .START) →
        (labelPositionOp v s).children.head? = some .label)
    ∧ ((v = .END ∨ v = .BOTTOM) →
        (labelPositionOp v s).children.getLast? = some .label)
    ∧ ((labelAlignmentOp w s).lblAlignment = w)
    ∧ (∀ a : LabelAlignment,
        alignClass a ∈ (labelAlignmentOp w s).classes ↔ a = w) := by
  obtain ⟨hcnt, hhead, hlast, hpc, hac⟩ := hwf
  have hsecond : s.children.get? 1 = some .label →
      s.children.getLast? = some .label := by
    intro h1
    rcases hv : s.lblPosition with _ | _ | _ | _
    · exact absurd ⟨hhead (Or.inl hv), h1⟩ (not_label_head_and_second _ hcnt)
    · exact hlast (Or.inl hv)
    · exact hlast (Or.inr hv)
    · exact absurd ⟨hhead (Or.inr hv), h1⟩ (not_label_head_and_second _ hcnt)
  constructor
  · unfold labelPositionOp
    split
    · rename_i hcond
      exact hcond.2.symm
    · cases v <;> rfl
  constructor
  · intro p
    unfold labelPositionOp
    split
    · rename_i hcond
      rw [hpc p, hcond.2]
    · cases v <;> cases p <;> simp [mem_addClass, mem_removeClass, posClass]
  constructor
  · intro hv
    unfold labelPositionOp
    split
    · rename_i hcond
      exact hhead (by rw [hcond.2] at hv; exact hv)
    · rcases hv with rfl | rfl <;>
        · simp only
          split
          · rfl
          · rename_i h0
            rw [not_not] at h0
            rw [← h0]
            cases s.children <;> rfl
  constructor
  · intro hv
    unfold labelPositionOp
    split
    · rename_i hcond
      exact hlast (by rw [hcond.2] at hv; exact hv)
    · rcases hv with rfl | rfl <;>
        · simp only
          split
          · exact List.getLast?_concat _
          · rename_i h1
            rw [not_not] at h1
            exact hsecond h1
  constructor
  · unfold labelAlignmentOp
    split
    · rename_i hcond
      exact hcond.2.symm
    · cases w <;> rfl
  · intro a
    unfold labelAlignmentOp
    split
    · rename_i hcond
      rw [hac a, hcond.2]
    · cases w <;> cases a <;> simp [mem_addClass, mem_removeClass, alignClass]

/-- Witness for `labelPosition_spec`: a well-formed component with the
label first, position `TOP`, alignment `START`, repositioned to `END` and
re-aligned to `CENTER`. -/
theorem labelPosition_spec_witness :
    ((labelPositionOp .END ⟨true, .TOP, .START, ["p-top", "a-start"],
        [.label, .comp 7]⟩).lblPosition = .END)
    ∧ (∀ p : LabelPosition, posClass p ∈ (labelPositionOp .END
        ⟨true, .TOP, .START, ["p-top", "a-start"], [.label, .comp 7]⟩).classes
        ↔ p = .END)
    ∧ ((LabelPosition.END = .TOP ∨ LabelPosition.END = .START) →
        (labelPositionOp .END ⟨true, .TOP, .START, ["p-top", "a-start"],
          [.label, .comp 7]⟩).children.head? = some .label)
    ∧ ((LabelPosition.END = .END ∨ LabelPosition.END = .BOTTOM) →
        (labelPositionOp .END ⟨true, .TOP, .START, ["p-top", "a-start"],
          [.label, .comp 7]⟩).children.getLast? = some .label)
    ∧ ((labelAlignmentOp .CENTER ⟨true, .TOP, .START, ["p-top", "a-start"],
        [.label, .comp 7]⟩).lblAlignment = .CENTER)
    ∧ (∀ a : LabelAlignment, alignClass a ∈ (labelAlignmentOp .CENTER
        ⟨true, .TOP, .START, ["p-top", "a-start"], [.label, .comp 7]⟩).classes
        ↔ a = .CENTER) :=
  labelPosition_spec ⟨true, .TOP, .START, ["p-top", "a-start"], [.label, .comp 7]⟩
    (by
      refine ⟨by decide, by decide, by decide, ?_, ?_⟩
      · intro p
        cases p <;> decide
      · intro a
        cases a <;> decide)
    .END .CENTER

/-! ## Lemmas on `tgActive`, shared by the `TabGroup` claims. -/

/-- Activating a tab does not change the tab ids of the group. -/
lemma tgActive_ids (s : TabGroupState) (o : Option Nat) :
    tabIds (tgActive s o) = tabIds s := by
  cases o with
  | none => rfl
  | some t =>
    simp only [tgActive]
    split
    · rfl
    · simp only [tabIds, List.map_map]
      apply List.map_congr_left
      intro tb _
      by_cases h1 : tb.active <;> by_cases h2 : tb.id = t <;>
        simp [Function.comp, h1, h2]

/-- Activating a member tab makes it the `activeTab` reference. -/
lemma tgActive_activeTab (s : TabGroupState) (t : Nat) (hm : t ∈ tabIds s) :
    (tgActive s (some t)).activeTab = some t := by
  simp only [tgActive]
  split
  · rename_i h
    rcases h with h | h
    · exact h
    · exact absurd hm h
  · rfl

/-! ## Theorems for claim C9 (`previous`/`next`). -/

/-- Effect of `previous()` on the `activeTab` reference when the active
tab is a member of the tab list. -/
lemma tgPrevious_activeTab (s : TabGroupState) (t : Nat)
    (hat : s.activeTab = some t) (hm : t ∈ tabIds s) :
    (tgPrevious s).activeTab =
      (tabIds s).get? (cyclicPrevIdx (tabIds s).length ((tabIds s).indexOf t))
    ∧ tabIds (tgPrevious s) = tabIds s := by
  have hlt : (tabIds s).indexOf t < (tabIds s).length :=
    List.indexOf_lt_length.mpr hm
  unfold tgPrevious
  rw [hat]
  simp only [tgPreviousAux]
  rw [if_neg (not_not_intro hm)]
  by_cases h0 : (tabIds s).indexOf t = 0
  · rw [if_pos h0]
    unfold tgLast cyclicPrevIdx
    rw [if_pos h0] at *
    have hne : tabIds s ≠ [] := List.ne_nil_of_mem hm
    have hlast := List.getLast?_eq_get? (tabIds s)
    have hlt2 : (tabIds s).length - 1 < (tabIds s).length := by omega
    rw [hlast, List.get?_eq_get hlt2]
    exact ⟨tgActive_activeTab s _ (List.get_mem _ _ _), tgActive_ids s _⟩
  · rw [if_neg h0]
    unfold cyclicPrevIdx
    rw [if_neg h0]
    have hlt2 : (tabIds s).indexOf t - 1 < (tabIds s).length := by omega
    rw [List.get?_eq_get hlt2]
    exact ⟨tgActive_activeTab s _ (List.get_mem _ _ _), tgActive_ids s _⟩

/-- Effect of `next()` on the `activeTab` reference when the active tab is
a member of the tab list. -/
lemma tgNext_activeTab (s : TabGroupState) (t : Nat)
    (hat : s.activeTab = some t) (hm : t ∈ tabIds s) :
    (tgNext s).activeTab =
      (tabIds s).get? (cyclicNextIdx (tabIds s).length ((tabIds s).indexOf t))
    ∧ tabIds (tgNext s) = tabIds s := by
  have hlt : (tabIds s).indexOf t < (tabIds s).length :=
    List.indexOf_lt_length.mpr hm
  unfold tgNext
  rw [hat]
  simp only [tgNextAux]
  rw [if_neg (not_not_intro hm)]
  by_cases h0 : (tabIds s).indexOf t = (tabIds s).length - 1
  · rw [if_pos h0]
    unfold tgFirst cyclicNextIdx
    rw [if_pos h0]
    have hne : tabIds s ≠ [] := List.ne_nil_of_mem hm
    have hlt2 : 0 < (tabIds s).length := by
      cases h : tabIds s with
      | nil => exact absurd h hne
      | cons a l => simp
    rw [← List.get?_zero, List.get?_eq_get hlt2]
    exact ⟨tgActive_activeTab s _ (List.get_mem _ _ _), tgActive_ids s _⟩
  · rw [if_neg h0]
    unfold cyclicNextIdx
    rw [if_neg h0]
    have hlt2 : (tabIds s).indexOf t + 1 < (tabIds s).length := by omega
    rw [List.get?_eq_get hlt2]
    exact ⟨tgActive_activeTab s _ (List.get_mem _ _ _), tgActive_ids s _⟩

/-- C9: in a tab group whose active tab is an element of its tab list,
`previous()` activates the last tab when the first tab is active and
otherwise the left neighbour; `next()` activates the first tab when the
last tab is active and otherwise the right neighbour; `next()` after
`previous()` (and `previous()` after `next()`) restores the originally
active tab; and when the active-tab reference is absent or not in the tab
list both operations change nothing. -/
theorem tabGroup_previous_next_spec (s : TabGroupState)
    (hnd : (tabIds s).Nodup) :
    (∀ t, s.activeTab = some t → t ∈ tabIds s →
      (((tabIds s).indexOf t = 0 →
          (tgPrevious s).activeTab = (tabIds s).getLast?)
        ∧ ((tabIds s).indexOf t ≠ 0 →
          (tgPrevious s).activeTab = (tabIds s).get? ((tabIds s).indexOf t - 1))
        ∧ ((tabIds s).indexOf t = (tabIds s).length - 1 →
          (tgNext s).activeTab = (tabIds s).head?)
        ∧ ((tabIds s).indexOf t ≠ (tabIds s).length - 1 →
          (tgNext s).activeTab = (tabIds s).get? ((tabIds s).indexOf t + 1))
        ∧ (tgNext (tgPrevious s)).activeTab = some t
        ∧ (tgPrevious (tgNext s)).activeTab = some t))
    ∧ ((match s.activeTab with
        | none => True
        | some t => ¬ t ∈ tabIds s) →
      tgPrevious s = s ∧ tgNext s = s) := by
  constructor
  · intro t hat hm
    have hlt : (tabIds s).indexOf t < (tabIds s).length :=
      List.indexOf_lt_length.mpr hm
    obtain ⟨hp, hpids⟩ := tgPrevious_activeTab s t hat hm
    obtain ⟨hn, hnids⟩ := tgNext_activeTab s t hat hm
    refine ⟨?_, ?_, ?_, ?_, ?_, ?_⟩
    · intro h0
      rw [hp, cyclicPrevIdx, if_pos h0, List.getLast?_eq_get?]
    · intro h0
      rw [hp, cyclicPrevIdx, if_neg h0]
    · intro h0
      rw [hn, cyclicNextIdx, if_pos h0, List.get?_zero]
    · intro h0
      rw [hn, cyclicNextIdx, if_neg h0]
    · -- next after previous
      set i := (tabIds s).indexOf t with hi
      set j := cyclicPrevIdx (tabIds s).length i with hj
      have hjlt : j < (tabIds s).length := by
        rw [hj]; unfold cyclicPrevIdx; split <;> omega
      have hp2 : (tgPrevious s).activeTab = some ((tabIds s).get ⟨j, hjlt⟩) := by
        rw [hp]; exact List.get?_eq_get hjlt
      have hm2 : (tabIds s).get ⟨j, hjlt⟩ ∈ tabIds (tgPrevious s) := by
        rw [hpids]; exact List.get_mem _ _ _
      have hidx : List.indexOf ((tabIds s).get ⟨j, hjlt⟩) (tabIds s) = j :=
        List.get_indexOf hnd ⟨j, hjlt⟩
      obtain ⟨hn2, _⟩ := tgNext_activeTab (tgPrevious s) _ hp2 hm2
      rw [hpids] at hn2
      rw [hn2, hidx]
      have hback : cyclicNextIdx (tabIds s).length j = i := by
        rw [hj]
        unfold cyclicPrevIdx cyclicNextIdx
        rcases eq_or_ne i 0 with h0 | h0
        · simp [h0]
        · rw [if_neg h0, if_neg (by omega)]
          omega
      rw [hback, List.get?_eq_get hlt]
      exact congrArg some (List.indexOf_get hlt)
    · -- previous after next
      set i := (tabIds s).indexOf t with hi
      set j := cyclicNextIdx (tabIds s).length i with hj
      have hjlt : j < (tabIds s).length := by
        rw [hj]; unfold cyclicNextIdx; split <;> omega
      have hn2 : (tgNext s).activeTab = some ((tabIds s).get ⟨j, hjlt⟩) := by
        rw [hn]; exact List.get?_eq_get hjlt
      have hm2 : (tabIds s).get ⟨j, hjlt⟩ ∈ tabIds (tgNext s) := by
        rw [hnids]; exact List.get_mem _ _ _
      have hidx : List.indexOf ((tabIds s).get ⟨j, hjlt⟩) (tabIds s) = j :=
        List.get_indexOf hnd ⟨j, hjlt⟩
      obtain ⟨hp2, _⟩ := tgPrevious_activeTab (tgNext s) _ hn2 hm2
      rw [hnids] at hp2
      rw [hp2, hidx]
      have hback : cyclicPrevIdx (tabIds s).length j = i := by
        rw [hj]
        unfold cyclicPrevIdx cyclicNextIdx
        rcases eq_or_ne i ((tabIds s).length - 1) with h0 | h0
        · simp [h0]
        · rw [if_neg h0, if_neg (by omega)]
          omega
      rw [hback, List.get?_eq_get hlt]
      exact congrArg some (List.indexOf_get hlt)
  · intro hnm
    cases hat : s.activeTab with
    | none =>
      constructor
      · unfold tgPrevious
        rw [hat]
        rfl
      · unfold tgNext
        rw [hat]
        rfl
    | some t =>
      rw [hat] at hnm
      constructor
      · unfold tgPrevious
        rw [hat]
        simp only [tgPreviousAux]
        exact if_pos hnm
      · unfold tgNext
        rw [hat]
        simp only [tgNextAux]
        exact if_pos hnm

/-! ## Theorems for claim C1 (`getTabToActivateAfterRemoval`). -/

/-- Every element of a list of naturals is bounded by `maxNat`. -/
lemma le_maxNat {l : List Nat} {a : Nat} (h : a ∈ l) : a ≤ maxNat l := by
  induction l with
  | nil => cases h
  | cons b t ih =>
    rcases List.mem_cons.mp h with rfl | h2
    · exact le_max_left _ _
    · exact (ih h2).trans (le_max_right _ _)

/-- The `sorted.find(e => e.Index === i)` test of the scanning loop is a
membership test of `i` among the `Index` components. -/
lemma find_fst_isSome (sorted : List (Nat × Nat)) (i : Nat) :
    (sorted.find? (fun e => e.1 = i)).isSome = true ↔ i ∈ sorted.map Prod.fst := by
  rw [List.find?_isSome]
  simp

/-- With enough fuel, the scanning loop returns the least index at or above
`i` that does not occur among the `Index` components. -/
lemma firstQualifiedIdx_spec (sorted : List (Nat × Nat)) :
    ∀ fuel i, maxNat (sorted.map Prod.fst) < i + fuel →
      (i ≤ firstQualifiedIdx sorted i fuel
        ∧ ¬ firstQualifiedIdx sorted i fuel ∈ sorted.map Prod.fst
        ∧ ∀ j, i ≤ j → j < firstQualifiedIdx sorted i fuel →
            j ∈ sorted.map Prod.fst) := by
  intro fuel
  induction fuel with
  | zero =>
    intro i hfuel
    unfold firstQualifiedIdx
    refine ⟨le_rfl, ?_, ?_⟩
    · intro hmem
      have := le_maxNat hmem
      omega
    · intro j hj1 hj2
      omega
  | succ f ih =>
    intro i hfuel
    unfold firstQualifiedIdx
    split
    · rename_i hfind
      have hmem : i ∈ sorted.map Prod.fst := (find_fst_isSome sorted i).mp hfind
      obtain ⟨h1, h2, h3⟩ := ih (i + 1) (by omega)
      refine ⟨by omega, h2, ?_⟩
      intro j hj1 hj2
      rcases eq_or_ne j i with rfl | hne
      · exact hmem
      · exact h3 j (by omega) hj2
    · rename_i hfind
      refine ⟨le_rfl, ?_, ?_⟩
      · intro hmem
        exact hfind ((find_fst_isSome sorted i).mpr hmem)
      · intro j hj1 hj2
        omega

/-- Membership in the JS-set deduplication (auxiliary form). -/
lemma mem_jsSetDedupAux [DecidableEq A] (a : A) :
    ∀ (l seen : List A), a ∈ jsSetDedupAux l seen ↔ (a ∈ l ∧ ¬ a ∈ seen) := by
  intro l
  induction l with
  | nil => intro seen; simp [jsSetDedupAux]
  | cons x xs ih =>
    intro seen
    simp only [jsSetDedupAux]
    split
    · rename_i hx
      rw [ih seen]
      simp only [List.mem_cons]
      constructor
      · rintro ⟨h1, h2⟩
        exact ⟨Or.inr h1, h2⟩
      · rintro ⟨h1 | h1, h2⟩
        · subst h1
          exact absurd hx h2
        · exact ⟨h1, h2⟩
    · rename_i hx
      rw [List.mem_cons, ih (x :: seen)]
      simp only [List.mem_cons]
      constructor
      · rintro (rfl | ⟨h1, h2⟩)
        · exact ⟨Or.inl rfl, hx⟩
        · exact ⟨Or.inr h1, fun hc => h2 (Or.inr hc)⟩
      · rintro ⟨h1 | h1, h2⟩
        · exact Or.inl h1
        · rcases eq_or_ne a x with rfl | hne
          · exact Or.inl rfl
          · exact Or.inr ⟨h1, fun hc => (by
              rcases hc with hc | hc
              · exact hne hc
              · exact h2 hc)⟩

/-- Membership in the JS-set deduplication. -/
lemma mem_jsSetDedup [DecidableEq A] (a : A) (l : List A) :
    a ∈ jsSetDedup l ↔ a ∈ l := by
  rw [jsSetDedup, mem_jsSetDedupAux]
  simp

/-- The JS-set deduplication contains no duplicates (auxiliary form). -/
lemma nodup_jsSetDedupAux [DecidableEq A] :
    ∀ (l seen : List A), (jsSetDedupAux l seen).Nodup := by
  intro l
  induction l with
  | nil => intro seen; simp [jsSetDedupAux]
  | cons x xs ih =>
    intro seen
    simp only [jsSetDedupAux]
    split
    · exact ih seen
    · refine List.nodup_cons.mpr ⟨?_, ih (x :: seen)⟩
      intro hc
      exact ((mem_jsSetDedupAux x xs (x :: seen)).mp hc).2 (List.mem_cons_self _ _)

/-- The JS-set deduplication contains no duplicates. -/
lemma nodup_jsSetDedup [DecidableEq A] (l : List A) : (jsSetDedup l).Nodup :=
  nodup_jsSetDedupAux l []

/-- A position of a list looked up with `getD` below the length. -/
lemma getD_of_lt (l : List Nat) (n : Nat) (h : n < l.length) :
    l.getD n 0 = l.get ⟨n, h⟩ := by
  rw [List.getD_eq_get?, List.get?_eq_get h]
  rfl

/-- The `Index` components of `tgRemovalSorted` are exactly the positions
of `tabs` holding a tab of the removal list (for `tabs` without duplicate
ids). -/
lemma mem_tgRemovalSorted_fst_iff (tabs rem : List Nat) (hnd : tabs.Nodup)
    (j : Nat) :
    (j ∈ (tgRemovalSorted tabs rem).map Prod.fst) ↔ removedIdxP tabs rem j := by
  have hperm : ((tgRemovalSorted tabs rem).map Prod.fst).Perm
      (((tgRemovalUniques tabs rem).map
        (fun tab => (List.indexOf tab tabs, tab))).map Prod.fst) :=
    (List.perm_insertionSort _ _).map Prod.fst
  rw [hperm.mem_iff, List.map_map]
  show (j ∈ (tgRemovalUniques tabs rem).map (fun t => List.indexOf t tabs)) ↔ _
  simp only [tgRemovalUniques, List.mem_map, List.mem_filter, mem_jsSetDedup,
    decide_eq_true_eq]
  constructor
  · rintro ⟨t, ⟨htr, htt⟩, rfl⟩
    have hlt : List.indexOf t tabs < tabs.length := List.indexOf_lt_length.mpr htt
    refine ⟨hlt, ?_⟩
    rw [getD_of_lt tabs _ hlt, List.indexOf_get hlt]
    exact htr
  · rintro ⟨hlt, hmem⟩
    refine ⟨tabs.getD j 0, ⟨hmem, ?_⟩, ?_⟩
    · rw [getD_of_lt tabs j hlt]
      exact List.get_mem _ _ _
    · rw [getD_of_lt tabs j hlt]
      exact List.get_indexOf hnd ⟨j, hlt⟩

/-- Head of `tgRemovalSorted` for a nonempty removal list: it exists, its
`Index` occurs among the `Index` components, and it is minimal among
them. -/
lemma tgRemovalSorted_head_min (tabs rem : List Nat)
    (hne : tgRemovalUniques tabs rem ≠ []) :
    ∃ p, (tgRemovalSorted tabs rem).head? = some p
      ∧ p.1 ∈ (tgRemovalSorted tabs rem).map Prod.fst
      ∧ ∀ j ∈ (tgRemovalSorted tabs rem).map Prod.fst, p.1 ≤ j := by
  have hperm : (tgRemovalSorted tabs rem).Perm
      ((tgRemovalUniques tabs rem).map (fun tab => (List.indexOf tab tabs, tab))) :=
    List.perm_insertionSort _ _
  have hsorted : List.Sorted (fun a b : Nat × Nat => a.1 ≤ b.1)
      (tgRemovalSorted tabs rem) :=
    @List.sorted_insertionSort (Nat × Nat) (fun a b => a.1 ≤ b.1) _
      ⟨fun a b => le_total a.1 b.1⟩ ⟨fun a b c hab hbc => le_trans hab hbc⟩
      ((tgRemovalUniques tabs rem).map (fun tab => (List.indexOf tab tabs, tab)))
  cases hs : tgRemovalSorted tabs rem with
  | nil =>
    rw [hs] at hperm
    exact absurd (List.map_eq_nil.mp hperm.symm.eq_nil) hne
  | cons p rest =>
    refine ⟨p, rfl, ?_, ?_⟩
    · exact List.mem_map.mpr ⟨p, List.mem_cons_self _ _, rfl⟩
    · intro j hj
      obtain ⟨q, hq, rfl⟩ := List.mem_map.mp hj
      rcases List.mem_cons.mp hq with rfl | hq2
      · exact le_rfl
      · rw [hs] at hsorted
        exact List.rel_of_sorted_cons hsorted q hq2

/-- C1 (counterexample): the claim says the function returns the surviving
tab whose index is closest to the active tab's index, and returns
`undefined` only when the active tab is not among the tabs to remove or no
tab survives.  First input: tabs `[10, 20, 30, 40, 50]`, active `20`
(index 1), removing `[20, 30, 40]` returns tab `50` (index 4, distance 3)
although tab `10` (index 0, distance 1) survives.  Second input: tabs
`[10, 20, 30, 40]`, active `30`, removing `[10, 30, 40]` returns
`undefined` although the active tab is among the removed tabs and tab `20`
survives. -/
theorem getTabToActivateAfterRemoval_cex :
    (getTabToActivateAfterRemoval [10, 20, 30, 40, 50] (some 20) [20, 30, 40]
        = some 50
      ∧ (20 : Nat) ∈ [20, 30, 40]
      ∧ (10 : Nat) ∈ [10, 20, 30, 40, 50] ∧ ¬ (10 : Nat) ∈ [20, 30, 40]
      ∧ List.indexOf 10 [10, 20, 30, 40, 50] = 0
      ∧ List.indexOf 20 [10, 20, 30, 40, 50] = 1
      ∧ List.indexOf 50 [10, 20, 30, 40, 50] = 4)
    ∧ (getTabToActivateAfterRemoval [10, 20, 30, 40] (some 30) [10, 30, 40]
        = none
      ∧ (30 : Nat) ∈ [10, 30, 40]
      ∧ (20 : Nat) ∈ [10, 20, 30, 40] ∧ ¬ (20 : Nat) ∈ [10, 30, 40]) := by
  decide

/-- C1 (amended): for a tab group without duplicate tabs whose active tab
is a member and is among the tabs to remove, `getTabToActivateAfterRemoval`
scans linearly to the right of the active index: when some index right of
the active index survives the removal, it returns the tab at the first such
index; when every index to the right of the active index is removed, it
takes the smallest removed index `m` and returns the tab at index `m - 1`,
which is `undefined` when `m = 0`, even if a tab at an index between `0`
and the active index survives. -/
theorem getTabToActivateAfterRemoval_spec (tabs rem : List Nat) (act : Nat)
    (hnd : tabs.Nodup) (hact : act ∈ tabs) (hrem : act ∈ rem) :
    ((∃ j, List.indexOf act tabs < j ∧ j < tabs.length
        ∧ ¬ removedIdxP tabs rem j) →
      ∃ q, getTabToActivateAfterRemoval tabs (some act) rem
          = some (tabs.getD q 0)
        ∧ List.indexOf act tabs < q ∧ q < tabs.length
        ∧ ¬ removedIdxP tabs rem q
        ∧ ∀ k, List.indexOf act tabs < k → k < q → removedIdxP tabs rem k)
    ∧ ((∀ j, List.indexOf act tabs < j → j < tabs.length →
          removedIdxP tabs rem j) →
      ∃ m, removedIdxP tabs rem m ∧ (∀ k, k < m → ¬ removedIdxP tabs rem k)
        ∧ getTabToActivateAfterRemoval tabs (some act) rem
            = (if m = 0 then none else some (tabs.getD (m - 1) 0))) := by
  have hau : act ∈ tgRemovalUniques tabs rem :=
    List.mem_filter.mpr ⟨(mem_jsSetDedup act rem).mpr hrem, by simp [hact]⟩
  have hne : tgRemovalUniques tabs rem ≠ [] := List.ne_nil_of_mem hau
  have hmemiff := mem_tgRemovalSorted_fst_iff tabs rem hnd
  obtain ⟨hge, hnotmem, hmin⟩ := firstQualifiedIdx_spec (tgRemovalSorted tabs rem)
    (maxNat ((tgRemovalSorted tabs rem).map Prod.fst) + 1)
    (List.indexOf act tabs + 1) (by omega)
  have hfun : getTabToActivateAfterRemoval tabs (some act) rem =
      (if tabs.length ≤ firstQualifiedIdx (tgRemovalSorted tabs rem)
          (List.indexOf act tabs + 1)
          (maxNat ((tgRemovalSorted tabs rem).map Prod.fst) + 1) then
        (match (tgRemovalSorted tabs rem).head? with
          | some p => jsGet tabs ((p.1 : Int) - 1)
          | none => none)
      else jsGet tabs ((firstQualifiedIdx (tgRemovalSorted tabs rem)
          (List.indexOf act tabs + 1)
          (maxNat ((tgRemovalSorted tabs rem).map Prod.fst) + 1) : Nat) : Int)) := by
    simp only [getTabToActivateAfterRemoval]
    rw [if_neg (not_not_intro hrem),
      if_neg (fun h => hne (List.isEmpty_iff.mp h))]
  rw [hfun]
  by_cases hcase : tabs.length ≤ firstQualifiedIdx (tgRemovalSorted tabs rem)
      (List.indexOf act tabs + 1)
      (maxNat ((tgRemovalSorted tabs rem).map Prod.fst) + 1)
  · rw [if_pos hcase]
    obtain ⟨p, hhead, hpmem, hpmin⟩ := tgRemovalSorted_head_min tabs rem hne
    rw [hhead]
    constructor
    · rintro ⟨j, hj1, hj2, hj3⟩
      exact absurd ((hmemiff j).mp (hmin j (by omega) (by omega))) hj3
    · intro _
      have hpR : removedIdxP tabs rem p.1 := (hmemiff p.1).mp hpmem
      refine ⟨p.1, hpR, ?_, ?_⟩
      · intro k hk hkR
        have := hpmin k ((hmemiff k).mpr hkR)
        omega
      · show jsGet tabs ((p.1 : Int) - 1)
            = (if p.1 = 0 then none else some (tabs.getD (p.1 - 1) 0))
        have hplen : p.1 < tabs.length := hpR.1
        rcases Nat.eq_zero_or_pos p.1 with h0 | h0
        · rw [if_pos h0]
          unfold jsGet
          rw [if_pos (by omega)]
        · rw [if_neg (by omega)]
          unfold jsGet
          rw [if_neg (by omega)]
          have htn : ((p.1 : Int) - 1).toNat = p.1 - 1 := by omega
          rw [htn, List.get?_eq_get (by omega), getD_of_lt tabs _ (by omega)]
  · rw [if_neg hcase]
    push_neg at hcase
    constructor
    · intro _
      refine ⟨firstQualifiedIdx (tgRemovalSorted tabs rem)
          (List.indexOf act tabs + 1)
          (maxNat ((tgRemovalSorted tabs rem).map Prod.fst) + 1),
        ?_, by omega, hcase, ?_, ?_⟩
      · unfold jsGet
        rw [if_neg (by omega)]
        rw [show ((firstQualifiedIdx (tgRemovalSorted tabs rem)
            (List.indexOf act tabs + 1)
            (maxNat ((tgRemovalSorted tabs rem).map Prod.fst) + 1) : Nat) :
            Int).toNat = firstQualifiedIdx (tgRemovalSorted tabs rem)
            (List.indexOf act tabs + 1)
            (maxNat ((tgRemovalSorted tabs rem).map Prod.fst) + 1) from by omega]
        rw [List.get?_eq_get hcase, getD_of_lt tabs _ hcase]
      · intro hR
        exact hnotmem ((hmemiff _).mpr hR)
      · intro k hk1 hk2
        exact (hmemiff k).mp (hmin k (by omega) (by omega))
    · intro hall
      exact absurd (hall _ (by omega) hcase)
        (fun hR => hnotmem ((hmemiff _).mpr hR))

/-- Witness for `getTabToActivateAfterRemoval_spec` on tabs `[10, 20, 30]`
with active tab `20`, removing `[20]`. -/
theorem getTabToActivateAfterRemoval_spec_witness :
    ((∃ j, List.indexOf 20 [10, 20, 30] < j ∧ j < ([10, 20, 30] : List Nat).length
        ∧ ¬ removedIdxP [10, 20, 30] [20] j) →
      ∃ q, getTabToActivateAfterRemoval [10, 20, 30] (some 20) [20]
          = some (([10, 20, 30] : List Nat).getD q 0)
        ∧ List.indexOf 20 [10, 20, 30] < q ∧ q < ([10, 20, 30] : List Nat).length
        ∧ ¬ removedIdxP [10, 20, 30] [20] q
        ∧ ∀ k, List.indexOf 20 [10, 20, 30] < k → k < q →
            removedIdxP [10, 20, 30] [20] k)
    ∧ ((∀ j, List.indexOf 20 [10, 20, 30] < j →
          j < ([10, 20, 30] : List Nat).length →
          removedIdxP [10, 20, 30] [20] j) →
      ∃ m, removedIdxP [10, 20, 30] [20] m
        ∧ (∀ k, k < m → ¬ removedIdxP [10, 20, 30] [20] k)
        ∧ getTabToActivateAfterRemoval [10, 20, 30] (some 20) [20]
            = (if m = 0 then none
              else some (([10, 20, 30] : List Nat).getD (m - 1) 0))) :=
  getTabToActivateAfterRemoval_spec [10, 20, 30] [20] 20
    (by decide) (by decide) (by decide)

/-- Witness for `tabGroup_previous_next_spec` on a three-tab group with
the middle tab active. -/
theorem tabGroup_previous_next_spec_witness :
    (tgNext (tgPrevious ⟨[⟨1, false⟩, ⟨2, true⟩, ⟨3, false⟩], some 2, some 2⟩)).activeTab
        = some 2
    ∧ (tgPrevious (tgNext ⟨[⟨1, false⟩, ⟨2, true⟩, ⟨3, false⟩], some 2, some 2⟩)).activeTab
        = some 2 := by
  have h := (tabGroup_previous_next_spec
    ⟨[⟨1, false⟩, ⟨2, true⟩, ⟨3, false⟩], some 2, some 2⟩ (by decide)).1
    2 rfl (by decide)
  exact ⟨h.2.2.2.2.1, h.2.2.2.2.2⟩

/-! ## Theorems for claim C4 (mutual exclusion in a tab group). -/

/-- Ids of the tab list produced by the two flag-updating maps of
`tgActive`. -/
lemma tgActive_maps_ids (s : TabGroupState) (t : Nat) :
    ((s.tabs.map (fun tb => if tb.active then { tb with active := false } else tb)).map
      (fun tb => if tb.id = t then { tb with active := true } else tb)).map Tab.id
    = tabIds s := by
  rw [List.map_map, List.map_map]
  apply List.map_congr_left
  intro tb _
  by_cases h1 : tb.active <;> by_cases h2 : tb.id = t <;>
    simp [Function.comp, h1, h2]

/-- Activating preserves the tab-group invariant. -/
lemma TGInv_active (s : TabGroupState) (h : TGInv s) (o : Option Nat) :
    TGInv (tgActive s o) := by
  obtain ⟨hnd, hcontent⟩ := h
  cases o with
  | none => exact ⟨hnd, hcontent⟩
  | some t =>
    simp only [tgActive]
    split
    · exact ⟨hnd, hcontent⟩
    · rename_i hcond
      push_neg at hcond
      unfold TGInv
      refine ⟨?_, ?_, rfl, ?_⟩
      · simp only [tabIds]
        rw [tgActive_maps_ids]
        exact hnd
      · simp only [tabIds]
        rw [tgActive_maps_ids]
        exact hcond.2
      · intro tb hmem
        obtain ⟨tb1, h1, rfl⟩ := List.mem_map.mp hmem
        obtain ⟨tb0, h0, rfl⟩ := List.mem_map.mp h1
        by_cases ha : tb0.active <;> by_cases hid : tb0.id = t <;>
          simp [ha, hid]

/-- The tab group invariant unpacked into an explicit disjunction over the
content reference. -/
lemma TGInv_dest (s : TabGroupState) (h : TGInv s) :
    (tabIds s).Nodup
    ∧ ((s.content = none ∧ ∀ tb ∈ s.tabs, tb.active = false)
      ∨ (∃ c, s.content = some c ∧ c ∈ tabIds s ∧ s.activeTab = some c
          ∧ ∀ tb ∈ s.tabs, tb.active = decide (tb.id = c))) := by
  obtain ⟨hnd, hcontent⟩ := h
  refine ⟨hnd, ?_⟩
  cases hc : s.content with
  | none =>
    rw [hc] at hcontent
    exact Or.inl ⟨rfl, hcontent⟩
  | some c =>
    rw [hc] at hcontent
    exact Or.inr ⟨c, rfl, hcontent⟩

/-- Constructor for the invariant of a group with an empty content area. -/
lemma TGInv_mk_none (tabs : List Tab) (act : Option Nat)
    (hnd : (tabs.map Tab.id).Nodup) (hflags : ∀ tb ∈ tabs, tb.active = false) :
    TGInv ⟨tabs, act, none⟩ :=
  ⟨hnd, hflags⟩

/-- Constructor for the invariant of a group showing the content of tab
`c`. -/
lemma TGInv_mk_some (tabs : List Tab) (c : Nat)
    (hnd : (tabs.map Tab.id).Nodup) (hcm : c ∈ tabs.map Tab.id)
    (hflags : ∀ tb ∈ tabs, tb.active = decide (tb.id = c)) :
    TGInv ⟨tabs, some c, some c⟩ :=
  ⟨hnd, hcm, rfl, hflags⟩

/-- The freshly started group satisfies the invariant. -/
lemma TGInv_init : TGInv tgInit :=
  TGInv_mk_none [] none List.nodup_nil (fun tb htb => absurd htb (List.not_mem_nil tb))

/-- `previous()`/`next()` and the other activation shortcuts preserve the
invariant (they only ever call `active`). -/
lemma TGInv_previousAux (s : TabGroupState) (h : TGInv s) (o : Option Nat) :
    TGInv (tgPreviousAux s o) := by
  cases o with
  | none => exact h
  | some act =>
    simp only [tgPreviousAux]
    split
    · exact h
    split
    · exact TGInv_active s h (tabIds s).getLast?
    · exact TGInv_active s h _

/-- `next()` preserves the invariant. -/
lemma TGInv_nextAux (s : TabGroupState) (h : TGInv s) (o : Option Nat) :
    TGInv (tgNextAux s o) := by
  cases o with
  | none => exact h
  | some act =>
    simp only [tgNextAux]
    split
    · exact h
    split
    · exact TGInv_active s h (tabIds s).head?
    · exact TGInv_active s h _

/-- Ids of the tab records built from a list of fresh ids. -/
lemma map_id_mk (l : List Nat) :
    (l.map (fun i => (⟨i, false⟩ : Tab))).map Tab.id = l := by
  induction l with
  | nil => rfl
  | cons a t ih => simp [ih]

/-- Appending fresh, duplicate-free tab records preserves the invariant. -/
lemma TGInv_append_mid (s : TabGroupState) (h : TGInv s) (newIds : List Nat)
    (hnodup : newIds.Nodup) (hfresh : ∀ a ∈ newIds, ¬ a ∈ tabIds s) :
    TGInv { s with tabs := s.tabs ++ newIds.map (fun i => ⟨i, false⟩) } := by
  obtain ⟨tabs, act, cont⟩ := s
  obtain ⟨hnd, hco⟩ := TGInv_dest _ h
  have hndnew : ((tabs ++ newIds.map (fun i => (⟨i, false⟩ : Tab))).map Tab.id).Nodup := by
    rw [List.map_append, map_id_mk]
    exact List.nodup_append.mpr ⟨hnd, hnodup, fun a ha hb => hfresh a hb ha⟩
  rcases hco with ⟨hcn, hflags⟩ | ⟨c, hcs, hcm, hat, hflags⟩
  · have hc : cont = none := hcn
    subst hc
    refine TGInv_mk_none _ _ hndnew ?_
    intro tb htb
    rcases List.mem_append.mp htb with h1 | h1
    · exact hflags tb h1
    · obtain ⟨i, _, rfl⟩ := List.mem_map.mp h1
      rfl
  · have hc : cont = some c := hcs
    have ha : act = some c := hat
    subst hc
    subst ha
    refine TGInv_mk_some _ _ hndnew ?_ ?_
    · rw [List.map_append]
      exact List.mem_append.mpr (Or.inl hcm)
    · intro tb htb
      rcases List.mem_append.mp htb with h1 | h1
      · exact hflags tb h1
      · obtain ⟨i, hi, rfl⟩ := List.mem_map.mp h1
        have hne : i ≠ c := fun hic => hfresh i hi (hic ▸ hcm)
        simp [hne]

/-- Zeta-expanded form of `tgAppend`. -/
lemma tgAppend_eq (s : TabGroupState) (ids : List Nat) :
    tgAppend s ids =
      if ids = [] then s
      else
        match ((jsSetDedup ids).filter (fun i => ¬ i ∈ tabIds s)).head? with
        | none => s
        | some firstId =>
          if s.tabs.length = 0 then
            tgActive { s with tabs := s.tabs ++
              ((jsSetDedup ids).filter (fun i => ¬ i ∈ tabIds s)).map (fun i => ⟨i, false⟩) }
              (some firstId)
          else { s with tabs := s.tabs ++
            ((jsSetDedup ids).filter (fun i => ¬ i ∈ tabIds s)).map (fun i => ⟨i, false⟩) } :=
  rfl

/-- `append(...tabs)` preserves the invariant. -/
lemma TGInv_append (s : TabGroupState) (h : TGInv s) (ids : List Nat) :
    TGInv (tgAppend s ids) := by
  have hmid : TGInv { s with tabs := s.tabs ++
      ((jsSetDedup ids).filter (fun i => ¬ i ∈ tabIds s)).map (fun i => ⟨i, false⟩) } := by
    refine TGInv_append_mid s h _ ((nodup_jsSetDedup ids).filter _) ?_
    intro a ha
    have := (List.mem_filter.mp ha).2
    simpa using this
  rw [tgAppend_eq]
  split
  · exact h
  split
  · exact h
  split
  · exact TGInv_active _ hmid _
  · exact hmid

/-- Ids of the batch records assembled by `insert` (a found member keeps its
record, hence its id; a detached tab enters as a fresh record with its own
id). -/
lemma moving_map_id (tabs : List Tab) (batch : List Nat) :
    (batch.map (fun i => (tabs.find? (fun tb => tb.id = i)).getD ⟨i, false⟩)).map Tab.id
      = batch := by
  rw [List.map_map]
  have hcongr : ∀ i ∈ batch,
      (Tab.id ∘ fun i => (tabs.find? (fun tb => tb.id = i)).getD ⟨i, false⟩) i = id i := by
    intro i _
    show ((tabs.find? (fun tb => tb.id = i)).getD ⟨i, false⟩).id = i
    cases hf : tabs.find? (fun tb => tb.id = i) with
    | none => rfl
    | some tb => simpa using List.find?_some hf
  rw [List.map_congr_left hcongr, List.map_id]

/-- A record assembled by `insert` is an existing member record or a fresh
inactive record for an id not in the group. -/
lemma moving_mem_or (tabs : List Tab) (i : Nat) :
    (tabs.find? (fun tb => tb.id = i)).getD ⟨i, false⟩ ∈ tabs
    ∨ ((tabs.find? (fun tb => tb.id = i)).getD ⟨i, false⟩ = ⟨i, false⟩
        ∧ ∀ tb ∈ tabs, tb.id ≠ i) := by
  cases hf : tabs.find? (fun tb => tb.id = i) with
  | some tb => exact Or.inl (List.mem_of_find?_eq_some hf)
  | none =>
    refine Or.inr ⟨rfl, fun tb htb => ?_⟩
    have := List.find?_eq_none.mp hf tb htb
    simpa using this

/-- Splicing a batch into the middle of the remaining records is a
permutation of the batch followed by the remaining records. -/
lemma perm_take_middle_drop (others moving : List Tab) (k : Nat) :
    (others.take k ++ moving ++ others.drop k).Perm (moving ++ others) := by
  have h1 : (others.take k ++ (moving ++ others.drop k)).Perm
      (moving ++ (others.take k ++ others.drop k)) := by
    refine List.Perm.trans List.perm_append_comm ?_
    rw [List.append_assoc]
    exact List.Perm.append_left moving List.perm_append_comm
  rw [List.append_assoc]
  rw [List.take_append_drop] at h1
  exact h1

/-- Zeta-expanded form of `tgInsert`. -/
lemma tgInsert_eq (s : TabGroupState) (at1 : Nat) (ids : List Nat) :
    tgInsert s at1 ids =
      if ids = [] then s
      else
        { s with tabs :=
            ((s.tabs.filter (fun tb => ¬ tb.id ∈ jsSetDedup ids)).take
                (min at1 (s.tabs.filter (fun tb => ¬ tb.id ∈ jsSetDedup ids)).length)
              ++ (jsSetDedup ids).map
                  (fun i => (s.tabs.find? (fun tb => tb.id = i)).getD ⟨i, false⟩)
              ++ (s.tabs.filter (fun tb => ¬ tb.id ∈ jsSetDedup ids)).drop
                (min at1 (s.tabs.filter (fun tb => ¬ tb.id ∈ jsSetDedup ids)).length)) } :=
  rfl

/-- `insert(at, ...tabs)` preserves the invariant. -/
lemma TGInv_insert (s : TabGroupState) (h : TGInv s) (at1 : Nat) (ids : List Nat) :
    TGInv (tgInsert s at1 ids) := by
  rw [tgInsert_eq]
  split
  · exact h
  obtain ⟨tabs, act, cont⟩ := s
  obtain ⟨hnd, hco⟩ := TGInv_dest _ h
  set batch := jsSetDedup ids with hbatch
  set moving := batch.map
    (fun i => (tabs.find? (fun tb => tb.id = i)).getD ⟨i, false⟩) with hmoving
  set others := tabs.filter (fun tb => ¬ tb.id ∈ batch) with hothers
  set k := min at1 others.length with hk
  have hperm : (others.take k ++ moving ++ others.drop k).Perm (moving ++ others) :=
    perm_take_middle_drop others moving k
  have hmovids : moving.map Tab.id = batch := moving_map_id tabs batch
  have hothernodup : (others.map Tab.id).Nodup :=
    List.Nodup.sublist ((List.filter_sublist tabs).map Tab.id) hnd
  have hdisj : ∀ a ∈ batch, ¬ a ∈ others.map Tab.id := by
    intro a ha hmem
    obtain ⟨tb, htb, hid⟩ := List.mem_map.mp hmem
    have := (List.mem_filter.mp htb).2
    rw [hid] at this
    simpa [ha] using this
  have hndnew : ((others.take k ++ moving ++ others.drop k).map Tab.id).Nodup := by
    refine ((hperm.map Tab.id).nodup_iff).mpr ?_
    rw [List.map_append, hmovids]
    exact List.nodup_append.mpr
      ⟨nodup_jsSetDedup ids, hothernodup, fun a ha hb => hdisj a ha hb⟩
  have hmemnew : ∀ tb, tb ∈ others.take k ++ moving ++ others.drop k ↔
      tb ∈ moving ++ others := fun tb => hperm.mem_iff
  have hmemtabs : ∀ tb ∈ moving ++ others,
      tb ∈ tabs ∨ (tb.active = false ∧ ∀ tb2 ∈ tabs, tb2.id ≠ tb.id) := by
    intro tb htb
    rcases List.mem_append.mp htb with h1 | h1
    · obtain ⟨i, _, rfl⟩ := List.mem_map.mp h1
      rcases moving_mem_or tabs i with h2 | ⟨h2, h3⟩
      · exact Or.inl h2
      · refine Or.inr ?_
        rw [h2]
        exact ⟨rfl, h3⟩
    · exact Or.inl (List.mem_filter.mp h1).1
  rcases hco with ⟨hcn, hflags⟩ | ⟨c, hcs, hcm, hat, hflags⟩
  · have hc : cont = none := hcn
    subst hc
    refine TGInv_mk_none _ _ hndnew ?_
    intro tb htb
    rcases hmemtabs tb ((hmemnew tb).mp htb) with h1 | ⟨h1, _⟩
    · exact hflags tb h1
    · exact h1
  · have hc : cont = some c := hcs
    have ha : act = some c := hat
    subst hc
    subst ha
    refine TGInv_mk_some _ _ hndnew ?_ ?_
    · refine ((hperm.map Tab.id).mem_iff).mpr ?_
      rw [List.map_append, hmovids]
      obtain ⟨tbc, htbc, hidc⟩ := List.mem_map.mp hcm
      by_cases hcb : c ∈ batch
      · exact List.mem_append.mpr (Or.inl hcb)
      · refine List.mem_append.mpr (Or.inr ?_)
        refine List.mem_map.mpr ⟨tbc, ?_, hidc⟩
        refine List.mem_filter.mpr ⟨htbc, ?_⟩
        simp [hidc, hcb]
    · intro tb htb
      rcases hmemtabs tb ((hmemnew tb).mp htb) with h1 | ⟨h1, h2⟩
      · exact hflags tb h1
      · obtain ⟨tbc, htbc, hidc⟩ := List.mem_map.mp hcm
        have hne : tb.id ≠ c := fun hc2 => h2 tbc htbc (by rw [hidc, hc2])
        simp [h1, hne]

/-- Zeta-expanded form of `tgRemove`. -/
lemma tgRemove_eq (s : TabGroupState) (ids : List Nat) :
    tgRemove s ids =
      if ids = [] then s
      else if ((jsSetDedup ids).filter (fun i => i ∈ tabIds s)).isEmpty then s
      else
        tgActive
          { tabs := s.tabs.filter
              (fun tb => ¬ tb.id ∈ (jsSetDedup ids).filter (fun i => i ∈ tabIds s))
            activeTab :=
              if (s.tabs.filter
                  (fun tb => ¬ tb.id ∈ (jsSetDedup ids).filter (fun i => i ∈ tabIds s))).isEmpty
              then none else s.activeTab
            content :=
              match s.content with
              | some c =>
                if c ∈ (jsSetDedup ids).filter (fun i => i ∈ tabIds s) then none else some c
              | none => none }
          (getTabToActivateAfterRemoval (tabIds s) s.activeTab
            ((jsSetDedup ids).filter (fun i => i ∈ tabIds s))) :=
  rfl

/-- The state `remove` reaches after filtering out the removed records,
clearing a removed content reference and letting `syncTabs` clear the
active-tab reference of an emptied group satisfies the invariant. -/
lemma TGInv_remove_mid (s : TabGroupState) (h : TGInv s) (rem : List Nat) :
    TGInv
      { tabs := s.tabs.filter (fun tb => ¬ tb.id ∈ rem)
        activeTab :=
          if (s.tabs.filter (fun tb => ¬ tb.id ∈ rem)).isEmpty then none else s.activeTab
        content :=
          match s.content with
          | some c => if c ∈ rem then none else some c
          | none => none } := by
  obtain ⟨tabs, act, cont⟩ := s
  obtain ⟨hnd, hco⟩ := TGInv_dest _ h
  have hndf : ((tabs.filter (fun tb => ¬ tb.id ∈ rem)).map Tab.id).Nodup :=
    List.Nodup.sublist ((List.filter_sublist tabs).map Tab.id) hnd
  rcases hco with ⟨hcn, hflags⟩ | ⟨c, hcs, hcm, hat, hflags⟩
  · have hc : cont = none := hcn
    subst hc
    refine TGInv_mk_none _ _ hndf ?_
    intro tb htb
    exact hflags tb (List.mem_filter.mp htb).1
  · have hc : cont = some c := hcs
    have ha : act = some c := hat
    subst hc
    subst ha
    by_cases hcr : c ∈ rem
    · simp only [if_pos hcr]
      refine TGInv_mk_none _ _ hndf ?_
      intro tb htb
      have hkeep := (List.mem_filter.mp htb).2
      have hne : tb.id ≠ c := by
        intro heq
        rw [heq] at hkeep
        simpa [hcr] using hkeep
      rw [hflags tb (List.mem_filter.mp htb).1]
      simp [hne]
    · simp only [if_neg hcr]
      obtain ⟨tbc, htbc, hidc⟩ := List.mem_map.mp hcm
      have htbc2 : tbc ∈ tabs.filter (fun tb => ¬ tb.id ∈ rem) :=
        List.mem_filter.mpr ⟨htbc, by simp [hidc, hcr]⟩
      have hne : (tabs.filter (fun tb => ¬ tb.id ∈ rem)).isEmpty = false := by
        rcases hh : (tabs.filter (fun tb => ¬ tb.id ∈ rem)).isEmpty with _ | _
        · exact hh
        · exact absurd (List.isEmpty_iff.mp hh) (List.ne_nil_of_mem htbc2)
      rw [hne]
      simp only [Bool.false_eq_true, if_false]
      refine TGInv_mk_some _ _ hndf ?_ ?_
      · exact List.mem_map.mpr ⟨tbc, htbc2, hidc⟩
      · intro tb htb
        exact hflags tb (List.mem_filter.mp htb).1

/-- `remove(...tabs)` preserves the invariant. -/
lemma TGInv_remove (s : TabGroupState) (h : TGInv s) (ids : List Nat) :
    TGInv (tgRemove s ids) := by
  rw [tgRemove_eq]
  split
  · exact h
  split
  · exact h
  exact TGInv_active _
    (TGInv_remove_mid s h ((jsSetDedup ids).filter (fun i => i ∈ tabIds s))) _

/-- Zeta-expanded form of `tgExtract`. -/
lemma tgExtract_eq (s : TabGroupState) (ids : List Nat) :
    tgExtract s ids =
      if ids = [] then ⟨[], none, none⟩
      else if ((jsSetDedup ids).filter (fun i => i ∈ tabIds s)).isEmpty then s
      else
        tgActive
          { tabs := s.tabs.filter
              (fun tb => ¬ tb.id ∈ (jsSetDedup ids).filter (fun i => i ∈ tabIds s))
            activeTab :=
              if (s.tabs.filter
                  (fun tb => ¬ tb.id ∈ (jsSetDedup ids).filter (fun i => i ∈ tabIds s))).isEmpty
              then none else s.activeTab
            content :=
              match s.content with
              | some c =>
                if c ∈ (jsSetDedup ids).filter (fun i => i ∈ tabIds s) then none else some c
              | none => none }
          (getTabToActivateAfterRemoval (tabIds s) s.activeTab
            ((jsSetDedup ids).filter (fun i => i ∈ tabIds s))) :=
  rfl

/-- `extract(to, ...tabs)` preserves the invariant. -/
lemma TGInv_extract (s : TabGroupState) (h : TGInv s) (ids : List Nat) :
    TGInv (tgExtract s ids) := by
  rw [tgExtract_eq]
  split
  · exact TGInv_init
  split
  · exact h
  exact TGInv_active _
    (TGInv_remove_mid s h ((jsSetDedup ids).filter (fun i => i ∈ tabIds s))) _

/-- `requestActivateTab` preserves the invariant. -/
lemma TGInv_requestActivate (s : TabGroupState) (h : TGInv s) (t : Nat) :
    TGInv (tgRequestActivateTab s t) := by
  unfold tgRequestActivateTab
  split
  · exact h
  · exact TGInv_active s h (some t)

/-- Zeta-expanded form of `tgRequestCloseTab`. -/
lemma tgRequestCloseTab_eq (s : TabGroupState) (t : Nat) :
    tgRequestCloseTab s t =
      if ¬ t ∈ tabIds s then s
      else if s.activeTab = some t then
        tgActive (tgRemove s [t])
          (match (tabIds (tgRemove s [t])).get? ((tabIds s).indexOf t) with
            | some x => some x
            | none => (tabIds (tgRemove s [t])).getLast?)
      else tgRemove s [t] :=
  rfl

/-- `requestCloseTab` preserves the invariant. -/
lemma TGInv_requestClose (s : TabGroupState) (h : TGInv s) (t : Nat) :
    TGInv (tgRequestCloseTab s t) := by
  rw [tgRequestCloseTab_eq]
  split
  · exact h
  split
  · exact TGInv_active _ (TGInv_remove s h [t]) _
  · exact TGInv_remove s h [t]

/-- Every single `TabGroup` operation preserves the invariant. -/
lemma TGInv_step (s : TabGroupState) (h : TGInv s) (op : TGOp) :
    TGInv (tgStep s op) := by
  cases op with
  | activate t => exact TGInv_active s h t
  | first => exact TGInv_active s h (tabIds s).head?
  | previous => exact TGInv_previousAux s h s.activeTab
  | next => exact TGInv_nextAux s h s.activeTab
  | last => exact TGInv_active s h (tabIds s).getLast?
  | append ids => exact TGInv_append s h ids
  | insert at1 ids => exact TGInv_insert s h at1 ids
  | remove ids => exact TGInv_remove s h ids
  | extract ids => exact TGInv_extract s h ids
  | requestActivate t => exact TGInv_requestActivate s h t
  | requestClose t => exact TGInv_requestClose s h t

/-- Every sequence of `TabGroup` operations preserves the invariant. -/
lemma TGInv_run (ops : List TGOp) (s : TabGroupState) (h : TGInv s) :
    TGInv (tgRun ops s) := by
  induction ops generalizing s with
  | nil => exact h
  | cons op rest ih => exact ih _ (TGInv_step s h op)

/-- Consequences of the invariant: mutual exclusion of the `Active` flags,
the coupling of the content area to the active tab, and the fact that
activating a member tab leaves only that tab flagged. -/
lemma TGInv_mutex (s : TabGroupState) (h : TGInv s) :
    ((s.tabs.filter (fun tb => tb.active)).length ≤ 1)
    ∧ (∀ tb ∈ s.tabs, tb.active = true →
        s.content = some tb.id ∧ s.activeTab = some tb.id)
    ∧ ((∀ tb ∈ s.tabs, tb.active = false) → s.content = none)
    ∧ (∀ t ∈ tabIds s, ∀ tb ∈ (tgActive s (some t)).tabs,
        tb.active = true → tb.id = t) := by
  obtain ⟨hnd, hco⟩ := TGInv_dest s h
  refine ⟨?_, ?_, ?_, ?_⟩
  · rcases hco with ⟨hcn, hflags⟩ | ⟨c, hcs, hcm, hat, hflags⟩
    · have hz : s.tabs.filter (fun tb => tb.active) = [] := by
        rw [List.filter_eq_nil_iff]
        intro tb htb
        simp [hflags tb htb]
      rw [hz]
      exact Nat.zero_le 1
    · have h1 : (s.tabs.filter (fun tb => tb.active)).length
          = s.tabs.countP (fun tb => tb.active) :=
        (List.countP_eq_length_filter _ _).symm
      have h2 : s.tabs.countP (fun tb => tb.active)
          = s.tabs.countP (fun tb => tb.id == c) := by
        refine List.countP_congr ?_
        intro tb htb
        simp [hflags tb htb]
      have h3 : (tabIds s).count c = s.tabs.countP (fun tb => tb.id == c) := by
        show (tabIds s).countP (fun x => x == c) = _
        rw [tabIds, List.countP_map]
        rfl
      rw [h1, h2, ← h3]
      exact List.nodup_iff_count_le_one.mp hnd c
  · intro tb htb hact
    rcases hco with ⟨hcn, hflags⟩ | ⟨c, hcs, hcm, hat, hflags⟩
    · rw [hflags tb htb] at hact
      exact absurd hact Bool.false_ne_true
    · have hid : tb.id = c := of_decide_eq_true ((hflags tb htb).symm.trans hact)
      exact ⟨by rw [hcs, hid], by rw [hat, hid]⟩
  · intro hall
    rcases hco with ⟨hcn, _⟩ | ⟨c, hcs, hcm, hat, hflags⟩
    · exact hcn
    · obtain ⟨tbc, htbc, hidc⟩ := List.mem_map.mp hcm
      have h1 := hflags tbc htbc
      rw [hall tbc htbc, hidc] at h1
      simp at h1
  · intro t ht tb htb hact
    by_cases hcond : s.activeTab = some t ∨ ¬ t ∈ tabIds s
    · have hEq : tgActive s (some t) = s := by
        simp only [tgActive]
        rw [if_pos hcond]
      rw [hEq] at htb
      rcases hcond with hcond | hcond
      · rcases hco with ⟨hcn, hflags⟩ | ⟨c, hcs, hcm, hat, hflags⟩
        · rw [hflags tb htb] at hact
          exact absurd hact Bool.false_ne_true
        · have hid : tb.id = c := of_decide_eq_true ((hflags tb htb).symm.trans hact)
          rw [hid]
          exact Option.some.inj (hat.symm.trans hcond)
      · exact absurd ht hcond
    · simp only [tgActive, if_neg hcond] at htb
      obtain ⟨tb1, h1, rfl⟩ := List.mem_map.mp htb
      obtain ⟨tb0, h0, rfl⟩ := List.mem_map.mp h1
      by_cases ha : tb0.active <;> by_cases hid : tb0.id = t <;>
        simp [ha, hid] at hact ⊢

/-- C4: in a tab group built by any sequence of `TabGroup` operations
(`active`, `first`, `previous`, `next`, `last`, `append`, `insert`,
`remove`, `extract`, `requestActivateTab`, `requestCloseTab`) the tabs are
mutually exclusive: at most one tab of the group has `Active === true`; the
content area holds the content container of exactly the tab flagged active
(it shows some tab's content only when that tab is flagged active and
referenced by `activeTab`, and it is empty when no tab is flagged active);
and activating a member tab deactivates every previously active tab: only
the newly activated tab keeps a set `Active` flag. -/
theorem tabGroup_mutualExclusion (ops : List TGOp) :
    (((tgRun ops tgInit).tabs.filter (fun tb => tb.active)).length ≤ 1)
    ∧ (∀ tb ∈ (tgRun ops tgInit).tabs, tb.active = true →
        (tgRun ops tgInit).content = some tb.id
        ∧ (tgRun ops tgInit).activeTab = some tb.id)
    ∧ ((∀ tb ∈ (tgRun ops tgInit).tabs, tb.active = false) →
        (tgRun ops tgInit).content = none)
    ∧ (∀ t ∈ tabIds (tgRun ops tgInit),
        ∀ tb ∈ (tgActive (tgRun ops tgInit) (some t)).tabs,
          tb.active = true → tb.id = t) :=
  TGInv_mutex (tgRun ops tgInit) (TGInv_run ops tgInit TGInv_init)

end VTSpec
